import Mathlib

/-!
sch2bob: the tagged-tree decoder and the sparse voxel projection.

A shallow embedding of `src/sch2bob.c`.

Conventions of the embedding.

* A byte is a `Nat` (a byte of a real file is below 256).  A file descriptor
  positioned in a regular file is the list of the bytes not yet read.
* Every function of the source that reads from a descriptor returns
  `Option (value × remaining bytes)`.  All of them take a `fuel : Nat`, an
  upper bound on the number of nested calls and loop iterations; `none`
  means that the computation did not return a value within that bound.  A
  call of the C function returns `v` exactly when the model returns
  `some v` for some fuel.  A call for which the model gives `none` for
  every fuel returns no value the model can state: `read_ensure` never
  returns behind the end of the input, and the loop of `TAG_List_read`
  stores outside its array on a list of more than `2^31` elements, which is
  undefined behaviour.
* `malloc` is assumed to succeed and the descriptor is assumed valid, so
  `read` never returns a negative number.
* C `int` is 32 bits wide, two's complement; the conversion of an
  out-of-range value to `int`, the signed multiplication and the increment
  of an `int` wrap modulo `2^32`.  A read or a store outside an array is
  undefined behaviour: the model stops there and says nothing about what
  the program does afterwards.
* Of the lines printed on `stderr` the model keeps those of `convert_file`
  (`Outcome.diagnostic`) and of `Named_TAG_number`
  (`Named_TAG_number_stderr`); the lines `unknown tag type` of `TAG_read`
  and `fail in reading` of `read_ensure` are not modelled.
-/

namespace Sch2bob

/-! ## Machine integers -/

/-- The low 32 bits of an integer: the conversion of a C `int` to
`uint32_t` (the usual arithmetic conversion applied when an `int` is
compared with a `TAG_Int`), and the truncation of a wider value. -/
def to_uint32 (v : Int) : Nat :=
  (v % 4294967296).toNat

/-- The conversion `(int)v`: the low 32 bits of `v` read as a C `int` in
two's complement. -/
def to_int (v : Int) : Int :=
  if to_uint32 v < 2147483648 then (to_uint32 v : Int) else (to_uint32 v : Int) - 4294967296

/-- The product `a * b` of two C `int`s. -/
def int_mul (a b : Int) : Int :=
  to_int (a * b)

/-- The value of a big-endian byte sequence: what `be16toh`, `be32toh` and
`be64toh` return for the bytes in file order. -/
def be_to_host (buf : List Nat) : Nat :=
  buf.foldl (fun acc b => acc * 256 + b) 0

/-! ## Reading from a descriptor -/

/-- The loop of `read_ensure` (lines 69-80).  `read(fd, buffer, count)` on a
regular file transfers `min count (bytes left)` bytes, which is 0 at end of
file; the loop runs until `count` reaches 0.  The result is the filled
buffer and the bytes left. -/
def read_ensure : Nat → List Nat → Nat → Option (List Nat × List Nat)
  | 0, _, _ => none
  | fuel + 1, fd, count =>
    if 0 < count then
      match read_ensure fuel (fd.drop (min count fd.length)) (count - min count fd.length) with
      | some (buffer, fd') => some (fd.take (min count fd.length) ++ buffer, fd')
      | none => none
    else some ([], fd)

/-- Lines 99-103. -/
def TAG_Byte_read (fuel : Nat) (fd : List Nat) : Option (Nat × List Nat) :=
  match read_ensure fuel fd 1 with
  | some (r, fd') => some (be_to_host r, fd')
  | none => none

/-- Lines 105-109. -/
def TAG_Short_read (fuel : Nat) (fd : List Nat) : Option (Nat × List Nat) :=
  match read_ensure fuel fd 2 with
  | some (r, fd') => some (be_to_host r, fd')
  | none => none

/-- Lines 111-115. -/
def TAG_Int_read (fuel : Nat) (fd : List Nat) : Option (Nat × List Nat) :=
  match read_ensure fuel fd 4 with
  | some (r, fd') => some (be_to_host r, fd')
  | none => none

/-- Lines 117-121. -/
def TAG_Long_read (fuel : Nat) (fd : List Nat) : Option (Nat × List Nat) :=
  match read_ensure fuel fd 8 with
  | some (r, fd') => some (be_to_host r, fd')
  | none => none

/-- Lines 123-127.  The four bytes are kept as read: the source stores them
without byte-order conversion and never looks at the value. -/
def TAG_Float_read (fuel : Nat) (fd : List Nat) : Option (List Nat × List Nat) :=
  read_ensure fuel fd 4

/-- Lines 129-133.  The eight bytes are kept as read. -/
def TAG_Double_read (fuel : Nat) (fd : List Nat) : Option (List Nat × List Nat) :=
  read_ensure fuel fd 8

/-- Type 8 (lines 43-46).  `bytes` is the whole allocated buffer: `length`
bytes from the file and the zero byte stored behind them. -/
structure TAG_String where
  length : Nat
  bytes : List Nat
deriving DecidableEq, Repr

/-- Lines 135-142. -/
def TAG_String_read (fuel : Nat) (fd : List Nat) : Option (TAG_String × List Nat) :=
  match TAG_Short_read fuel fd with
  | none => none
  | some (length, fd1) =>
    match read_ensure fuel fd1 length with
    | none => none
    | some (bytes, fd2) => some ({ length := length, bytes := bytes ++ [0] }, fd2)

/-! ## The tag tree -/

mutual
/-- What a `void *tag` points to.  `null` is the `NULL` that `TAG_read`
returns for an unknown tag type and that the terminator carries. -/
inductive Tag where
  | byte (v : Nat)
  | short (v : Nat)
  | int (v : Nat)
  | long (v : Nat)
  | float (raw : List Nat)
  | double (raw : List Nat)
  | byteArray (length : Nat) (bytes : List Nat)
  | string (s : TAG_String)
  | list (tagId : Nat) (length : Nat) (tags : TagArray)
  | compound (c : TAG_Compound)
  | null
deriving DecidableEq, Repr
/-- The array `void **tags` of a `TAG_List`. -/
inductive TagArray where
  | nil
  | cons (tag : Tag) (rest : TagArray)
deriving DecidableEq, Repr
/-- Lines 55-59. -/
inductive Named_TAG where
  | mk (tagType : Nat) (name : Option TAG_String) (tag : Tag)
deriving DecidableEq, Repr
/-- Lines 62-67: a linked list of named tags; `null` is the `NULL` pointer,
which is also the empty compound. -/
inductive TAG_Compound where
  | null
  | node (tag : Named_TAG) (next : TAG_Compound)
deriving DecidableEq, Repr
end

/-- Field `tagType`. -/
def Named_TAG.tagType : Named_TAG → Nat
  | .mk tagType _ _ => tagType

/-- Field `name`. -/
def Named_TAG.name : Named_TAG → Option TAG_String
  | .mk _ name _ => name

/-- Field `tag`. -/
def Named_TAG.tag : Named_TAG → Tag
  | .mk _ _ tag => tag

/-- Lines 151-157. -/
def TAG_Byte_Array_read (fuel : Nat) (fd : List Nat) : Option (Tag × List Nat) :=
  match TAG_Int_read fuel fd with
  | none => none
  | some (length, fd1) =>
    match read_ensure fuel fd1 length with
    | none => none
    | some (bytes, fd2) => some (.byteArray length bytes, fd2)

mutual
/-- Lines 216-260. -/
def TAG_read : Nat → List Nat → Nat → Option (Tag × List Nat)
  | 0, _, _ => none
  | fuel + 1, fd, tagType =>
    match tagType with
    | 1 =>
      match TAG_Byte_read fuel fd with
      | some (r, fd') => some (.byte r, fd')
      | none => none
    | 2 =>
      match TAG_Short_read fuel fd with
      | some (r, fd') => some (.short r, fd')
      | none => none
    | 3 =>
      match TAG_Int_read fuel fd with
      | some (r, fd') => some (.int r, fd')
      | none => none
    | 4 =>
      match TAG_Long_read fuel fd with
      | some (r, fd') => some (.long r, fd')
      | none => none
    | 5 =>
      match TAG_Float_read fuel fd with
      | some (r, fd') => some (.float r, fd')
      | none => none
    | 6 =>
      match TAG_Double_read fuel fd with
      | some (r, fd') => some (.double r, fd')
      | none => none
    | 7 => TAG_Byte_Array_read fuel fd
    | 8 =>
      match TAG_String_read fuel fd with
      | some (r, fd') => some (.string r, fd')
      | none => none
    | 9 => TAG_List_read fuel fd
    | 10 =>
      match TAG_Compound_read fuel fd with
      | some (r, fd') => some (.compound r, fd')
      | none => none
    | _ => some (.null, fd)
/-- Lines 168-176. -/
def TAG_List_read : Nat → List Nat → Option (Tag × List Nat)
  | 0, _ => none
  | fuel + 1, fd =>
    match TAG_Byte_read fuel fd with
    | none => none
    | some (tagId, fd1) =>
      match TAG_Int_read fuel fd1 with
      | none => none
      | some (length, fd2) =>
        match TAG_List_loop fuel fd2 tagId length 0 with
        | none => none
        | some (tags, fd3) => some (.list tagId length tags, fd3)
/-- The loop of lines 173-174, `for (int i = 0; i < r->length; ++i)
r->tags[i] = TAG_read(fd, r->tagId)`, from the test of the condition on.
The arguments behind the descriptor are `r->tagId`, `r->length` (a
`uint32_t`) and the value of `int i`.  The comparison is made in
`uint32_t`, and `++i` wraps from `2^31 - 1` to `-2^31`.  The result is the
array from `tags[i]` on.  With a negative `i` the store `r->tags[i]` is
outside the array: the behaviour is undefined and there is no result. -/
def TAG_List_loop : Nat → List Nat → Nat → Nat → Int → Option (TagArray × List Nat)
  | 0, _, _, _, _ => none
  | fuel + 1, fd, tagId, length, i =>
    if to_uint32 i < length then
      if 0 ≤ i then
        match TAG_read fuel fd tagId with
        | none => none
        | some (tag, fd1) =>
          match TAG_List_loop fuel fd1 tagId length (to_int (i + 1)) with
          | none => none
          | some (rest, fd2) => some (.cons tag rest, fd2)
      else none
    else some (.nil, fd)
/-- Lines 191-203. -/
def TAG_Compound_read : Nat → List Nat → Option (TAG_Compound × List Nat)
  | 0, _ => none
  | fuel + 1, fd =>
    match Named_TAG_read fuel fd with
    | none => none
    | some (tag, fd1) =>
      if tag.tagType = 0 then some (.null, fd1)
      else
        match TAG_Compound_read fuel fd1 with
        | none => none
        | some (next, fd2) => some (.node tag next, fd2)
/-- Lines 291-304. -/
def Named_TAG_read : Nat → List Nat → Option (Named_TAG × List Nat)
  | 0, _ => none
  | fuel + 1, fd =>
    match TAG_Byte_read fuel fd with
    | none => none
    | some (tagType, fd1) =>
      if tagType = 0 then some (.mk 0 none .null, fd1)
      else
        match TAG_String_read fuel fd1 with
        | none => none
        | some (name, fd2) =>
          match TAG_read fuel fd2 tagType with
          | none => none
          | some (tag, fd3) => some (.mk tagType (some name) tag, fd3)
end

/-! ## Lookup and coercion -/

/-- The C string that starts at the beginning of a buffer: the bytes before
the first zero byte. -/
def c_str (bytes : List Nat) : List Nat :=
  bytes.takeWhile (fun c => c != 0)

/-- The test `strcmp(a, b) == 0`. -/
def strcmp_eq (a b : List Nat) : Bool :=
  c_str a == c_str b

/-- The condition of line 314, `base->name && strcmp(base->name->bytes, name) == 0`. -/
def name_matches (base : Named_TAG) (name : List Nat) : Bool :=
  match base.name with
  | some s => strcmp_eq s.bytes name
  | none => false

mutual
/-- Lines 313-331.  `name` is the buffer of the C string looked for.  For a
decoded tree the payload of a tag of type 10 is always a compound. -/
def Named_TAG_find : Named_TAG → List Nat → Option Named_TAG
  | .mk tagType name tag, q =>
    if name_matches (.mk tagType name tag) q then some (.mk tagType name tag)
    else if tagType ≠ 10 then none
    else
      match tag with
      | .compound comp => Named_TAG_find_loop comp q
      | _ => none
/-- The loop of lines 322-328. -/
def Named_TAG_find_loop : TAG_Compound → List Nat → Option Named_TAG
  | .null, _ => none
  | .node tag next, q =>
    match Named_TAG_find tag q with
    | some r => some r
    | none => Named_TAG_find_loop next q
end

/-- Lines 333-347; the result is the returned `int`.  For a decoded tree
the payload of a tag of type 1, 2, 3 or 4 is always the matching integer;
the last case is the `default` branch, which returns 0. -/
def Named_TAG_number : Named_TAG → Int
  | .mk 1 _ (.byte v) => to_int v
  | .mk 2 _ (.short v) => to_int v
  | .mk 3 _ (.int v) => to_int v
  | .mk 4 _ (.long v) => to_int v
  | _ => 0

/-- The arguments of one call of `fprintf` at line 427. -/
structure Record where
  x : Nat
  z : Nat
  y : Nat
  b : Nat
  d : Nat
deriving DecidableEq, Repr

/-- The text that `fprintf(f, "%d,%d,%d:%d.%d\n", x, z, y, b, d)` appends. -/
def Record.line (r : Record) : String :=
  toString r.x ++ "," ++ toString r.z ++ "," ++ toString r.y ++ ":" ++
    toString r.b ++ "." ++ toString r.d ++ "\n"

/-- The state of the loop of lines 420-431: the value of `int index`, the
text passed to the stream `f` so far, and the arguments of the calls of
line 427 made so far, in call order. -/
structure Proj where
  index : Int
  f : String
  emitted : List Record
deriving DecidableEq, Repr

/-- Lines 424-430; `++index` wraps from `2^31 - 1` to `-2^31`.
`Except.error` is undefined behaviour, a read outside an array (behind its
end, or before it with a negative `index`), with the state reached before
it: the source has no test there and the program does not stop, so that
nothing is known of the run from there on. -/
def loop_body (blocks block_data : List Nat) (x z y : Nat) (st : Proj) : Except Proj Proj :=
  if 0 ≤ st.index then
    match blocks[st.index.toNat]? with
    | none => .error st
    | some b =>
      if b ≠ 0 then
        match block_data[st.index.toNat]? with
        | none => .error st
        | some d =>
          .ok { index := to_int (st.index + 1),
                f := st.f ++ Record.line ⟨x, z, y, b, d⟩,
                emitted := st.emitted ++ [⟨x, z, y, b, d⟩] }
      else .ok { st with index := to_int (st.index + 1) }
  else .error st

/-- The loop of line 423; the first numeric argument is the number of
iterations still to run, `width - x`, and the second the counter `int x`,
which stays below `width` and so below `2^31`. -/
def loop_x (blocks block_data : List Nat) (z y : Nat) : Nat → Nat → Proj → Except Proj Proj
  | 0, _, st => .ok st
  | n + 1, x, st =>
    match loop_body blocks block_data x z y st with
    | .error e => .error e
    | .ok st' => loop_x blocks block_data z y n (x + 1) st'

/-- The loop of line 422; the first numeric argument is `length - z`. -/
def loop_z (blocks block_data : List Nat) (width y : Nat) : Nat → Nat → Proj → Except Proj Proj
  | 0, _, st => .ok st
  | n + 1, z, st =>
    match loop_x blocks block_data z y width 0 st with
    | .error e => .error e
    | .ok st' => loop_z blocks block_data width y n (z + 1) st'

/-- The loop of line 421; the first numeric argument is `height - y`. -/
def loop_y (blocks block_data : List Nat) (length width : Nat) : Nat → Nat → Proj → Except Proj Proj
  | 0, _, st => .ok st
  | n + 1, y, st =>
    match loop_z blocks block_data width y length 0 st with
    | .error e => .error e
    | .ok st' => loop_y blocks block_data length width n (y + 1) st'

/-- The state in which a run of a loop ends. -/
def reached : Except Proj Proj → Proj
  | .ok st => st
  | .error st => st

/-- The stream after lines 410-418. -/
def header : String :=
  "" ++ "[META]\n" ++ "version=2.0\n" ++ "spawnElevationMin=0\n" ++ "spawnElevationMax=128\n" ++
    "rarity=100\n" ++ "collisionPercentage=2\n" ++ "[DATA]\n"

/-- How a run of the part of `convert_file` behind the decoding ends: with
one of the four diagnostics (no output file is opened), with the file
written and closed, or in a read outside an array inside the loop of lines
420-431.  The fields of `out_of_bounds` are the records emitted and the
text passed to the stream before that read; they are not the contents of
the output file, which such a run does not determine. -/
inductive Outcome where
  | missing_vital_tag
  | dimensions_messed_up
  | incorrect_type
  | inconsistent_data
  | written (emitted : List Record) (f : String)
  | out_of_bounds (emitted : List Record) (f : String)
deriving DecidableEq, Repr

/-- The line that the run prints on `stderr` at line 379, 389, 395 or 405
when it ends there, for the given file name. -/
def Outcome.diagnostic (filename : String) : Outcome → String
  | .missing_vital_tag => filename ++ " missing a vital tag\n"
  | .dimensions_messed_up => filename ++ "'s dimensions are messed up\n"
  | .incorrect_type => filename ++ " blocks or block data incorrect type\n"
  | .inconsistent_data => filename ++ " has inconsistent data\n"
  | _ => ""

/-- The contents of the output file that the run wrote and closed (line
433).  A run that ends with a diagnostic opens no file; a run that ends in
undefined behaviour does not reach line 433 in the model, and the contents
of its file are not determined. -/
def Outcome.text : Outcome → Option String
  | .written _ f => some f
  | _ => none

/-- The buffer of a string literal of the source. -/
def literal (s : String) : List Nat :=
  s.toList.map Char.toNat ++ [0]

/-- The fields of the `TAG_Byte_Array` a payload points to.  For a decoded
tree the payload of a tag of type 7 is always a byte array. -/
def Tag.byte_array : Tag → Nat × List Nat
  | .byteArray length bytes => (length, bytes)
  | _ => (0, [])

/-- Lines 372-433: the conversion of a decoded tree.  A loop `for (int v =
0; v < bound; ++v)` runs `bound.toNat` times, and `v` stays below `bound`,
an `int`. -/
def convert_tag (tag : Named_TAG) : Outcome :=
  match Named_TAG_find tag (literal "Height"), Named_TAG_find tag (literal "Length"),
      Named_TAG_find tag (literal "Width"), Named_TAG_find tag (literal "Blocks"),
      Named_TAG_find tag (literal "Data") with
  | some theight, some tlength, some twidth, some tblocks, some tblock_data =>
    let height := Named_TAG_number theight
    let length := Named_TAG_number tlength
    let width := Named_TAG_number twidth
    if height = 0 ∨ width = 0 ∨ length = 0 then .dimensions_messed_up
    else if tblocks.tagType ≠ 7 ∨ tblock_data.tagType ≠ 7 then .incorrect_type
    else
      let blocks := tblocks.tag.byte_array
      let block_data := tblock_data.tag.byte_array
      if to_uint32 (int_mul (int_mul height length) width) ≠ blocks.1 ∨ blocks.1 ≠ block_data.1 then
        .inconsistent_data
      else
        match loop_y blocks.2 block_data.2 length.toNat width.toNat height.toNat 0
            { index := 0, f := header, emitted := [] } with
        | .ok st => .written st.emitted st.f
        | .error st => .out_of_bounds st.emitted st.f
  | _, _, _, _, _ => .missing_vital_tag

/-- Lines 368-433 of `convert_file`: the input file is decoded from its
first byte and the tree converted.  The derivation of the output path and
the test whether it exists (lines 350-366) are not modelled. -/
def convert_file (fuel : Nat) (file : List Nat) : Option Outcome :=
  match Named_TAG_read fuel file with
  | none => none
  | some (tag, _) => some (convert_tag tag)

/-! ## The format of section 6 of the specification

The definitions of this section follow the grammar of the specification,
not the source: they say which bytes encode a tree. -/

/-- The `w` bytes of `v` in big-endian order. -/
def be : Nat → Nat → List Nat
  | 0, _ => []
  | w + 1, v => be w (v / 256) ++ [v % 256]

/-- The `length` bytes of a string that come from the file. -/
def TAG_String.data (s : TAG_String) : List Nat :=
  s.bytes.take s.length

/-- `String ::= Length:uint16 Bytes[Length]`. -/
def enc_string (s : TAG_String) : List Nat :=
  be 2 s.length ++ s.data

mutual
/-- The payload of a tag: scalars in their width, `ByteArray ::=
Length:uint32 Bytes[Length]`, `List ::= ElementKind:uint8 Count:uint32
Payload[Count]`, `Compound ::= NamedTag* Terminator`. -/
def enc_tag : Tag → List Nat
  | .byte v => be 1 v
  | .short v => be 2 v
  | .int v => be 4 v
  | .long v => be 8 v
  | .float raw => raw
  | .double raw => raw
  | .byteArray length bytes => be 4 length ++ bytes
  | .string s => enc_string s
  | .list tagId length tags => be 1 tagId ++ (be 4 length ++ enc_array tags)
  | .compound c => enc_compound c
  | .null => []
/-- The unnamed payloads of a list, one behind the other. -/
def enc_array : TagArray → List Nat
  | .nil => []
  | .cons tag rest => enc_tag tag ++ enc_array rest
/-- `NamedTag ::= Discriminant(1) [ Name:String Payload ]`. -/
def enc_named : Named_TAG → List Nat
  | .mk tagType (some name) tag => be 1 tagType ++ (enc_string name ++ enc_tag tag)
  | .mk tagType none _ => be 1 tagType
/-- The entries of a compound and the terminator byte. -/
def enc_compound : TAG_Compound → List Nat
  | .null => [0]
  | .node tag next => enc_named tag ++ enc_compound next
end

/-- A string as the decoder builds it: a length that fits 16 bits, that many
bytes, and the terminating zero byte behind them. -/
def wf_string (s : TAG_String) : Bool :=
  decide (s.length < 65536) && decide (s.bytes.length = s.length + 1) &&
    decide (s.bytes = s.data ++ [0])

mutual
/-- `wf_tag k t`: `t` is a well-formed payload of kind `k` (1 to 10): the
constructor is the one of kind `k`, scalars and lengths fit their width,
arrays have their declared length, list elements are all of the element
kind, which is itself between 1 and 10, or 0 for a list of length 0. -/
def wf_tag : Nat → Tag → Bool
  | k, .byte v => decide (k = 1) && decide (v < 256)
  | k, .short v => decide (k = 2) && decide (v < 65536)
  | k, .int v => decide (k = 3) && decide (v < 4294967296)
  | k, .long v => decide (k = 4) && decide (v < 18446744073709551616)
  | k, .float raw => decide (k = 5) && decide (raw.length = 4)
  | k, .double raw => decide (k = 6) && decide (raw.length = 8)
  | k, .byteArray length bytes =>
    decide (k = 7) && decide (length < 4294967296) && decide (bytes.length = length)
  | k, .string s => decide (k = 8) && wf_string s
  | k, .list tagId length tags =>
    decide (k = 9) && (decide (1 ≤ tagId) || decide (length = 0)) && decide (tagId ≤ 10) &&
      decide (length < 4294967296) && wf_array tagId length tags
  | k, .compound c => decide (k = 10) && wf_compound c
  | _, .null => false
/-- `wf_array k n a`: `a` holds exactly `n` well-formed payloads of kind `k`. -/
def wf_array : Nat → Nat → TagArray → Bool
  | _, n, .nil => decide (n = 0)
  | k, n, .cons tag rest => decide (0 < n) && wf_tag k tag && wf_array k (n - 1) rest
/-- A well-formed named tag: a kind between 1 and 10, a name, and a
well-formed payload of that kind. -/
def wf_named : Named_TAG → Bool
  | .mk tagType (some name) tag => wf_string name && wf_tag tagType tag
  | .mk _ none _ => false
/-- A compound all of whose entries are well-formed. -/
def wf_compound : TAG_Compound → Bool
  | .null => true
  | .node tag next => wf_named tag && wf_compound next
end

mutual
/-- `short_tag t`: every list in `t`, at any depth, has fewer than `2^31`
elements, the counts that the `int` counter of line 173 reaches without
wrapping.  This is a bound of the source, not of the grammar. -/
def short_tag : Tag → Bool
  | .list _ length tags => decide (length < 2147483648) && short_array tags
  | .compound c => short_compound c
  | _ => true
/-- Every element is short. -/
def short_array : TagArray → Bool
  | .nil => true
  | .cons tag rest => short_tag tag && short_array rest
/-- The payload is short. -/
def short_named : Named_TAG → Bool
  | .mk _ _ tag => short_tag tag
/-- Every entry is short. -/
def short_compound : TAG_Compound → Bool
  | .null => true
  | .node tag next => short_named tag && short_compound next
end

mutual
/-- An amount of fuel that suffices for `TAG_read` to decode the encoding
of a payload. -/
def cost_tag : Tag → Nat
  | .list _ _ tags => 4 + cost_array tags
  | .compound c => 1 + cost_compound c
  | _ => 3
/-- Fuel for `TAG_List_loop`. -/
def cost_array : TagArray → Nat
  | .nil => 1
  | .cons tag rest => 1 + cost_tag tag + cost_array rest
/-- Fuel for `Named_TAG_read`. -/
def cost_named : Named_TAG → Nat
  | .mk _ _ tag => 3 + cost_tag tag
/-- Fuel for `TAG_Compound_read`. -/
def cost_compound : TAG_Compound → Nat
  | .null => 4
  | .node tag next => 1 + cost_named tag + cost_compound next
end

/-- The compound with the given entries, in order. -/
def TAG_Compound.of_list : List Named_TAG → TAG_Compound
  | [] => .null
  | t :: ts => .node t (TAG_Compound.of_list ts)

/-- The entries of a compound, in order. -/
def TAG_Compound.entries : TAG_Compound → List Named_TAG
  | .null => []
  | .node t next => t :: next.entries

/-- The array with the given elements, in order. -/
def TagArray.of_list : List Tag → TagArray
  | [] => .nil
  | t :: ts => .cons t (TagArray.of_list ts)

/-- The elements of an array, in order. -/
def TagArray.elements : TagArray → List Tag
  | .nil => []
  | .cons t rest => t :: rest.elements

/-- The encodings `enc(t1) ++ ... ++ enc(tn)` of a sequence of named tags. -/
def enc_entries : List Named_TAG → List Nat
  | [] => []
  | t :: ts => enc_named t ++ enc_entries ts

/-- The encodings `p1 ++ ... ++ pn` of a sequence of unnamed payloads. -/
def enc_payloads : List Tag → List Nat
  | [] => []
  | t :: ts => enc_tag t ++ enc_payloads ts

/-- The number of payload bytes of the integer kinds 1 to 4. -/
def int_width : Nat → Nat
  | 1 => 1
  | 2 => 2
  | 3 => 4
  | 4 => 8
  | _ => 0

/-- The payload of integer kind `k` with the stored value `v`. -/
def int_tag : Nat → Nat → Tag
  | 1, v => .byte v
  | 2, v => .short v
  | 3, v => .int v
  | 4, v => .long v
  | _, _ => .null

/-- The buffer of section 8: a root Compound named `r` that holds one tag
of integer kind `k` named `n` with the value `v` in big-endian order, and
the terminator of the root. -/
def one_int_file (r n : List Nat) (k v : Nat) : List Nat :=
  [10] ++ be 2 r.length ++ r ++ ([k] ++ be 2 n.length ++ n ++ be (int_width k) v) ++ [0]

/-- The tag of integer kind `k` named `n` with the value `v`, as decoded. -/
def one_int_child (n : List Nat) (k v : Nat) : Named_TAG :=
  .mk k (some { length := n.length, bytes := n ++ [0] }) (int_tag k v)

/-- The tree that `one_int_file r n k v` stands for. -/
def one_int_tree (r n : List Nat) (k v : Nat) : Named_TAG :=
  .mk 10 (some { length := r.length, bytes := r ++ [0] })
    (.compound (.node (one_int_child n k v) .null))

mutual
/-- `lenient_tag k t`: `t` is a payload as `TAG_read` builds it for the tag
type `k`: as `wf_tag` for the kinds 1 to 10, with any element type below
256 and fewer than `2^31` elements in a list (the counts that the counter
`int i` of line 173 reaches without wrapping), and the absent payload for
the type 0 and the types above 10. -/
def lenient_tag : Nat → Tag → Bool
  | k, .byte v => decide (k = 1) && decide (v < 256)
  | k, .short v => decide (k = 2) && decide (v < 65536)
  | k, .int v => decide (k = 3) && decide (v < 4294967296)
  | k, .long v => decide (k = 4) && decide (v < 18446744073709551616)
  | k, .float raw => decide (k = 5) && decide (raw.length = 4)
  | k, .double raw => decide (k = 6) && decide (raw.length = 8)
  | k, .byteArray length bytes =>
    decide (k = 7) && decide (length < 4294967296) && decide (bytes.length = length)
  | k, .string s => decide (k = 8) && wf_string s
  | k, .list tagId length tags =>
    decide (k = 9) && decide (tagId < 256) && decide (length < 2147483648) &&
      lenient_array tagId length tags
  | k, .compound c => decide (k = 10) && lenient_compound c
  | k, .null => decide (k = 0 ∨ 10 < k)
/-- `lenient_array k n a`: `a` holds exactly `n` payloads of the type `k`. -/
def lenient_array : Nat → Nat → TagArray → Bool
  | _, n, .nil => decide (n = 0)
  | k, n, .cons tag rest => decide (0 < n) && lenient_tag k tag && lenient_array k (n - 1) rest
/-- A named tag of any type from 1 to 255 with a well-formed name. -/
def lenient_named : Named_TAG → Bool
  | .mk tagType (some name) tag =>
    decide (0 < tagType) && decide (tagType < 256) && wf_string name && lenient_tag tagType tag
  | .mk _ none _ => false
/-- A compound all of whose entries are lenient. -/
def lenient_compound : TAG_Compound → Bool
  | .null => true
  | .node tag next => lenient_named tag && lenient_compound next
end

/-! ## The search order of section 4.4 of the specification -/

mutual
/-- The nodes of a tree in depth-first pre-order: a node, then, when it is a
Compound, the nodes of its children from left to right. -/
def preorder : Named_TAG → List Named_TAG
  | .mk tagType name tag =>
    .mk tagType name tag ::
      (if tagType = 10 then
        match tag with
        | .compound c => preorder_children c
        | _ => []
      else [])
/-- The pre-order of the entries of a compound, one entry behind the other. -/
def preorder_children : TAG_Compound → List Named_TAG
  | .null => []
  | .node tag next => preorder tag ++ preorder_children next
end

/-- The name of a node equals the query as length-prefixed byte sequences:
the declared `length` bytes of the name are the bytes of the query. -/
def name_equals (base : Named_TAG) (name : List Nat) : Bool :=
  match base.name with
  | some s => s.data == c_str name
  | none => false

/-! ## The projection of section 4.6 of the specification -/

/-- The record of the cell with linear index `i` in a grid of the given
`length` and `width`: `x = i mod width`, `z = (i div width) mod length`,
`y = i div (width * length)`. -/
def cell_record (length width : Nat) (blocks block_data : List Nat) (i : Nat) : Record :=
  { x := i % width, z := i / width % length, y := i / (width * length),
    b := blocks.getD i 0, d := block_data.getD i 0 }

/-- The records of the cells with index below `n` whose block is not 0, by
ascending index. -/
def records_upto (length width : Nat) (blocks block_data : List Nat) (n : Nat) : List Record :=
  ((List.range n).filter (fun i => blocks.getD i 0 != 0)).map
    (cell_record length width blocks block_data)

/-- The lines of a sequence of records, one behind the other. -/
def render : List Record → String
  | [] => ""
  | r :: rs => r.line ++ render rs

/-! ## Sample inputs -/

/-- A file with a root compound holding Height 2, Length 1, Width 2 (as
Shorts) and the byte arrays Blocks = 0 5 7 0 and Data = 1 3 2 9. -/
def sample_file : List Nat :=
  [10, 0, 0,
   2, 0, 6, 72, 101, 105, 103, 104, 116, 0, 2,
   2, 0, 6, 76, 101, 110, 103, 116, 104, 0, 1,
   2, 0, 5, 87, 105, 100, 116, 104, 0, 2,
   7, 0, 6, 66, 108, 111, 99, 107, 115, 0, 0, 0, 4, 0, 5, 7, 0,
   7, 0, 4, 68, 97, 116, 97, 0, 0, 0, 4, 1, 3, 2, 9,
   0]

/-- The tag named Height of `sample_file`. -/
def sample_height : Named_TAG :=
  .mk 2 (some ⟨6, [72, 101, 105, 103, 104, 116, 0]⟩) (.short 2)

/-- The tag named Length of `sample_file`. -/
def sample_length : Named_TAG :=
  .mk 2 (some ⟨6, [76, 101, 110, 103, 116, 104, 0]⟩) (.short 1)

/-- The tag named Width of `sample_file`. -/
def sample_width : Named_TAG :=
  .mk 2 (some ⟨5, [87, 105, 100, 116, 104, 0]⟩) (.short 2)

/-- The tag named Blocks of `sample_file`. -/
def sample_blocks : Named_TAG :=
  .mk 7 (some ⟨6, [66, 108, 111, 99, 107, 115, 0]⟩) (.byteArray 4 [0, 5, 7, 0])

/-- The tag named Data of `sample_file`. -/
def sample_data : Named_TAG :=
  .mk 7 (some ⟨4, [68, 97, 116, 97, 0]⟩) (.byteArray 4 [1, 3, 2, 9])

/-- The tree that `sample_file` decodes to. -/
def sample_tree : Named_TAG :=
  .mk 10 (some ⟨0, [0]⟩)
    (.compound (.node sample_height (.node sample_length (.node sample_width
      (.node sample_blocks (.node sample_data .null))))))

/-- The example of section 8 of the specification: Width 2, Height 1,
Length 1 (as Shorts), Blocks = 0 5, Data = 0 3, in a root compound. -/
def tiny_file : List Nat :=
  [10, 0, 0,
   2, 0, 6, 72, 101, 105, 103, 104, 116, 0, 1,
   2, 0, 6, 76, 101, 110, 103, 116, 104, 0, 1,
   2, 0, 5, 87, 105, 100, 116, 104, 0, 2,
   7, 0, 6, 66, 108, 111, 99, 107, 115, 0, 0, 0, 2, 0, 5,
   7, 0, 4, 68, 97, 116, 97, 0, 0, 0, 2, 0, 3,
   0]

/-- An Int named X with value 42. -/
def x_int : Named_TAG :=
  .mk 3 (some ⟨1, [88, 0]⟩) (.int 42)

/-- A root compound `a` holding a compound `b` holding a compound `c`
holding `x_int`: the Int is nested three compounds deep. -/
def deep_tree : Named_TAG :=
  .mk 10 (some ⟨1, [97, 0]⟩) (.compound (.node
    (.mk 10 (some ⟨1, [98, 0]⟩) (.compound (.node
      (.mk 10 (some ⟨1, [99, 0]⟩) (.compound (.node x_int .null))) .null))) .null))

/-- A root compound `a` holding first a compound `b` with a Byte X = 1 and
behind it a Byte X = 2: the deeper X is met first in pre-order. -/
def shadow_tree : Named_TAG :=
  .mk 10 (some ⟨1, [97, 0]⟩) (.compound
    (.node (.mk 10 (some ⟨1, [98, 0]⟩) (.compound (.node (.mk 1 (some ⟨1, [88, 0]⟩) (.byte 1)) .null)))
    (.node (.mk 1 (some ⟨1, [88, 0]⟩) (.byte 2)) .null)))

/-- A root compound `a` holding first a Byte X = 2 and behind it a compound
`b` with a Byte X = 1: the shallower X is met first in pre-order. -/
def shallow_first_tree : Named_TAG :=
  .mk 10 (some ⟨1, [97, 0]⟩) (.compound
    (.node (.mk 1 (some ⟨1, [88, 0]⟩) (.byte 2))
    (.node (.mk 10 (some ⟨1, [98, 0]⟩) (.compound (.node (.mk 1 (some ⟨1, [88, 0]⟩) (.byte 1)) .null)))
      .null)))

/-- A Byte whose name has the declared length 3 and the bytes `H`, 0, `X`. -/
def nul_name_tag : Named_TAG :=
  .mk 1 (some ⟨3, [72, 0, 88, 0]⟩) (.byte 7)

/-- A file with Height 2, Length 2, Width 2 (product 8) and byte arrays Blocks and
Data of length 4. -/
def mismatch_file : List Nat :=
  [10, 0, 0, 2, 0, 6, 72, 101, 105, 103, 104, 116, 0, 2, 2, 0, 6, 76, 101, 110, 103, 116,
   104, 0, 2, 2, 0, 5, 87, 105, 100, 116, 104, 0, 2, 7, 0, 6, 66, 108, 111, 99, 107, 115, 0,
   0, 0, 4, 1, 2, 3, 4, 7, 0, 4, 68, 97, 116, 97, 0, 0, 0, 4, 0, 0, 0, 0, 0]

/-- A file with Height 0, Length 1, Width 1, Blocks = 5 and Data = 3 4: the two
arrays differ in length, and both differ from the product 0. -/
def zero_height_file : List Nat :=
  [10, 0, 0, 2, 0, 6, 72, 101, 105, 103, 104, 116, 0, 0, 2, 0, 6, 76, 101, 110, 103, 116,
   104, 0, 1, 2, 0, 5, 87, 105, 100, 116, 104, 0, 1, 7, 0, 6, 66, 108, 111, 99, 107, 115, 0,
   0, 0, 1, 5, 7, 0, 4, 68, 97, 116, 97, 0, 0, 0, 2, 3, 4, 0]

/-- A file with Height and Length stored as the Int `FF FF FF FF`, Width 1,
Blocks = 5 and Data = 3. -/
def negative_file : List Nat :=
  [10, 0, 0, 3, 0, 6, 72, 101, 105, 103, 104, 116, 255, 255, 255, 255, 3, 0, 6, 76, 101, 110,
   103, 116, 104, 255, 255, 255, 255, 2, 0, 5, 87, 105, 100, 116, 104, 0, 1, 7, 0, 6, 66,
   108, 111, 99, 107, 115, 0, 0, 0, 1, 5, 7, 0, 4, 68, 97, 116, 97, 0, 0, 0, 1, 3, 0]

/-- The name field of a decoded tag whose name is the given text. -/
def named (s : String) : Option TAG_String :=
  some { length := s.length, bytes := literal s }

/-- A root compound with an empty name and the given entries. -/
def root_of (entries : List Named_TAG) : Named_TAG :=
  .mk 10 (some ⟨0, [0]⟩) (.compound (TAG_Compound.of_list entries))

/-- The tree that `mismatch_file` decodes to. -/
def mismatch_tree : Named_TAG :=
  root_of [.mk 2 (named "Height") (.short 2), .mk 2 (named "Length") (.short 2),
    .mk 2 (named "Width") (.short 2), .mk 7 (named "Blocks") (.byteArray 4 [1, 2, 3, 4]),
    .mk 7 (named "Data") (.byteArray 4 [0, 0, 0, 0])]

/-- The tree that `zero_height_file` decodes to. -/
def zero_height_tree : Named_TAG :=
  root_of [.mk 2 (named "Height") (.short 0), .mk 2 (named "Length") (.short 1),
    .mk 2 (named "Width") (.short 1), .mk 7 (named "Blocks") (.byteArray 1 [5]),
    .mk 7 (named "Data") (.byteArray 2 [3, 4])]

/-- The tree that `negative_file` decodes to. -/
def negative_tree : Named_TAG :=
  root_of [.mk 3 (named "Height") (.int 4294967295), .mk 3 (named "Length") (.int 4294967295),
    .mk 2 (named "Width") (.short 1), .mk 7 (named "Blocks") (.byteArray 1 [5]),
    .mk 7 (named "Data") (.byteArray 1 [3])]

/-- A file without a tag named Height: Length 1, Width 1, Blocks = 5, Data = 3. -/
def missing_height_file : List Nat :=
  [10, 0, 0, 2, 0, 6, 76, 101, 110, 103, 116, 104, 0, 1, 2, 0, 5, 87, 105, 100, 116, 104, 0,
   1, 7, 0, 6, 66, 108, 111, 99, 107, 115, 0, 0, 0, 1, 5, 7, 0, 4, 68, 97, 116, 97, 0, 0, 0,
   1, 3, 0]

/-- The tree that `missing_height_file` decodes to. -/
def missing_height_tree : Named_TAG :=
  root_of [.mk 2 (named "Length") (.short 1), .mk 2 (named "Width") (.short 1),
    .mk 7 (named "Blocks") (.byteArray 1 [5]), .mk 7 (named "Data") (.byteArray 1 [3])]

/-- A file without a tag named Data: Height 1, Length 1, Width 1, Blocks = 5. -/
def missing_data_file : List Nat :=
  [10, 0, 0, 2, 0, 6, 72, 101, 105, 103, 104, 116, 0, 1, 2, 0, 6, 76, 101, 110, 103, 116,
   104, 0, 1, 2, 0, 5, 87, 105, 100, 116, 104, 0, 1, 7, 0, 6, 66, 108, 111, 99, 107, 115, 0,
   0, 0, 1, 5, 0]

/-- The tree that `missing_data_file` decodes to. -/
def missing_data_tree : Named_TAG :=
  root_of [.mk 2 (named "Height") (.short 1), .mk 2 (named "Length") (.short 1),
    .mk 2 (named "Width") (.short 1), .mk 7 (named "Blocks") (.byteArray 1 [5])]

/-- A file with Height 0, Length 1, Width 1, Blocks a String `ab` and Data a byte
array of length 3. -/
def zero_height_odd_file : List Nat :=
  [10, 0, 0, 2, 0, 6, 72, 101, 105, 103, 104, 116, 0, 0, 2, 0, 6, 76, 101, 110, 103, 116,
   104, 0, 1, 2, 0, 5, 87, 105, 100, 116, 104, 0, 1, 8, 0, 6, 66, 108, 111, 99, 107, 115, 0,
   2, 97, 98, 7, 0, 4, 68, 97, 116, 97, 0, 0, 0, 3, 1, 2, 3, 0]

/-- The tree that `zero_height_odd_file` decodes to. -/
def zero_height_odd_tree : Named_TAG :=
  root_of [.mk 2 (named "Height") (.short 0), .mk 2 (named "Length") (.short 1),
    .mk 2 (named "Width") (.short 1), .mk 8 (named "Blocks") (.string ⟨2, [97, 98, 0]⟩),
    .mk 7 (named "Data") (.byteArray 3 [1, 2, 3])]

/-- A file with Height 1, Length 1, Width 1, Blocks a String `ab` and Data = 3. -/
def wrong_type_file : List Nat :=
  [10, 0, 0, 2, 0, 6, 72, 101, 105, 103, 104, 116, 0, 1, 2, 0, 6, 76, 101, 110, 103, 116,
   104, 0, 1, 2, 0, 5, 87, 105, 100, 116, 104, 0, 1, 8, 0, 6, 66, 108, 111, 99, 107, 115, 0,
   2, 97, 98, 7, 0, 4, 68, 97, 116, 97, 0, 0, 0, 1, 3, 0]

/-- The tree that `wrong_type_file` decodes to. -/
def wrong_type_tree : Named_TAG :=
  root_of [.mk 2 (named "Height") (.short 1), .mk 2 (named "Length") (.short 1),
    .mk 2 (named "Width") (.short 1), .mk 8 (named "Blocks") (.string ⟨2, [97, 98, 0]⟩),
    .mk 7 (named "Data") (.byteArray 1 [3])]

/-- A file with Height and Length stored as the Int 65536, Width 1, and empty byte
arrays Blocks and Data: the product of the dimensions is `2^32`. -/
def overflow_file : List Nat :=
  [10, 0, 0, 3, 0, 6, 72, 101, 105, 103, 104, 116, 0, 1, 0, 0, 3, 0, 6, 76, 101, 110, 103,
   116, 104, 0, 1, 0, 0, 2, 0, 5, 87, 105, 100, 116, 104, 0, 1, 7, 0, 6, 66, 108, 111, 99,
   107, 115, 0, 0, 0, 0, 7, 0, 4, 68, 97, 116, 97, 0, 0, 0, 0, 0]

/-- The tree that `overflow_file` decodes to. -/
def overflow_tree : Named_TAG :=
  root_of [.mk 3 (named "Height") (.int 65536), .mk 3 (named "Length") (.int 65536),
    .mk 2 (named "Width") (.short 1), .mk 7 (named "Blocks") (.byteArray 0 []),
    .mk 7 (named "Data") (.byteArray 0 [])]

/-- A file whose root compound holds a tag of the unknown kind 11 named U, then the
Int X = 42, then the terminator. -/
def unknown_kind_file : List Nat :=
  [10, 0, 0, 11, 0, 1, 85, 3, 0, 1, 88, 0, 0, 0, 42, 0]

/-- The tree that `unknown_kind_file` decodes to. -/
def unknown_kind_tree : Named_TAG :=
  root_of [.mk 11 (named "U") .null, x_int]

/-- The file `sample_file` with the Data bytes of the two cells whose block is 0
changed: Data = 8 3 2 6. -/
def sample_file_alt : List Nat :=
  [10, 0, 0, 2, 0, 6, 72, 101, 105, 103, 104, 116, 0, 2, 2, 0, 6, 76, 101, 110, 103, 116,
   104, 0, 1, 2, 0, 5, 87, 105, 100, 116, 104, 0, 2, 7, 0, 6, 66, 108, 111, 99, 107, 115, 0,
   0, 0, 4, 0, 5, 7, 0, 7, 0, 4, 68, 97, 116, 97, 0, 0, 0, 4, 8, 3, 2, 6, 0]

/-- The tree that `sample_file_alt` decodes to. -/
def sample_tree_alt : Named_TAG :=
  root_of [sample_height, sample_length, sample_width, sample_blocks,
    .mk 7 (named "Data") (.byteArray 4 [8, 3, 2, 6])]

/-- An array of `n` absent elements. -/
def TagArray.nulls : Nat → TagArray
  | 0 => .nil
  | n + 1 => .cons .null (TagArray.nulls n)

/-- The first of the five names, in the order of lines 372-376, that the
lookup does not find in a tree. -/
def first_missing (tag : Named_TAG) : Option String :=
  ["Height", "Length", "Width", "Blocks", "Data"].find?
    (fun s => (Named_TAG_find tag (literal s)).isNone)

/-- A root compound that holds a compound `b` and, behind it, the Int X =
42; the compound `b` holds a tag of the unknown type 11 named U and the
Int X = 42. -/
def nested_unknown_tree : Named_TAG :=
  root_of [.mk 10 (named "b") (.compound (TAG_Compound.of_list [.mk 11 (named "U") .null, x_int])),
    x_int]

/-- A file with Height 2 and Length 3 (as Shorts), Width stored as the Int
715827883, and the byte arrays Blocks = 5 0 and Data = 3 0: the product of
the dimensions is `2^32 + 2`. -/
def wrapped_file : List Nat :=
  [10, 0, 0, 2, 0, 6, 72, 101, 105, 103, 104, 116, 0, 2, 2, 0, 6, 76, 101, 110, 103, 116,
   104, 0, 3, 3, 0, 5, 87, 105, 100, 116, 104, 42, 170, 170, 171, 7, 0, 6, 66, 108, 111, 99,
   107, 115, 0, 0, 0, 2, 5, 0, 7, 0, 4, 68, 97, 116, 97, 0, 0, 0, 2, 3, 0, 0]

/-- The tree that `wrapped_file` decodes to. -/
def wrapped_tree : Named_TAG :=
  root_of [.mk 2 (named "Height") (.short 2), .mk 2 (named "Length") (.short 3),
    .mk 3 (named "Width") (.int 715827883), .mk 7 (named "Blocks") (.byteArray 2 [5, 0]),
    .mk 7 (named "Data") (.byteArray 2 [3, 0])]

/-- The file `wrapped_file` with the Data byte of the cell of index 1, whose
block is 0, changed: Data = 3 9. -/
def wrapped_file_alt : List Nat :=
  [10, 0, 0, 2, 0, 6, 72, 101, 105, 103, 104, 116, 0, 2, 2, 0, 6, 76, 101, 110, 103, 116,
   104, 0, 3, 3, 0, 5, 87, 105, 100, 116, 104, 42, 170, 170, 171, 7, 0, 6, 66, 108, 111, 99,
   107, 115, 0, 0, 0, 2, 5, 0, 7, 0, 4, 68, 97, 116, 97, 0, 0, 0, 2, 3, 9, 0]

/-- The tree that `wrapped_file_alt` decodes to. -/
def wrapped_tree_alt : Named_TAG :=
  root_of [.mk 2 (named "Height") (.short 2), .mk 2 (named "Length") (.short 3),
    .mk 3 (named "Width") (.int 715827883), .mk 7 (named "Blocks") (.byteArray 2 [5, 0]),
    .mk 7 (named "Data") (.byteArray 2 [3, 9])]

/-- The List payload of `n` Bytes of value 7. -/
def byte_list (n : Nat) : Tag :=
  .list 1 n (TagArray.of_list (List.replicate n (.byte 7)))

/-- The List tag named L that holds `n` Bytes of value 7. -/
def byte_list_entry (n : Nat) : Named_TAG :=
  .mk 9 (some ⟨1, [76, 0]⟩) (byte_list n)

/-! ## Machine integers: lemmas -/

theorem to_int_of_small (v : Int) (h0 : 0 ≤ v) (h1 : v < 2147483648) : to_int v = v := by
  unfold to_int to_uint32
  have : v % 4294967296 = v := by omega
  rw [this]
  have h2 : v.toNat < 2147483648 := by omega
  rw [if_pos h2]
  omega

theorem to_uint32_of_small (v : Nat) (h1 : v < 4294967296) : to_uint32 (v : Int) = v := by
  unfold to_uint32
  have : (v : Int) % 4294967296 = v := by omega
  rw [this]
  simp

theorem to_int_succ (i : Nat) (h : i + 1 < 2147483648) :
    to_int ((i : Int) + 1) = ((i + 1 : Nat) : Int) := by
  rw [to_int_of_small _ (by omega) (by omega)]
  push_cast
  rfl

theorem be_to_host_snoc (xs : List Nat) (b : Nat) :
    be_to_host (xs ++ [b]) = be_to_host xs * 256 + b := by
  simp [be_to_host, List.foldl_append]

theorem be_length (w v : Nat) : (be w v).length = w := by
  induction w generalizing v with
  | zero => simp [be]
  | succ w ih => simp [be, ih]

theorem be_to_host_be (w v : Nat) : be_to_host (be w v) = v % 256 ^ w := by
  induction w generalizing v with
  | zero => simp [be, be_to_host, Nat.mod_one]
  | succ w ih =>
    rw [be, be_to_host_snoc, ih, pow_succ]
    rw [Nat.mul_comm (256 ^ w) 256, Nat.mod_mul]
    omega


/-! ## The projection loops -/

theorem render_snoc (rs : List Record) (r : Record) : render (rs ++ [r]) = render rs ++ r.line := by
  induction rs with
  | nil => simp [render]
  | cons a rs ih => simp [render, ih, String.append_assoc]

theorem records_upto_succ (length width : Nat) (blocks block_data : List Nat) (i : Nat) :
    records_upto length width blocks block_data (i + 1) =
      records_upto length width blocks block_data i ++
        (if blocks.getD i 0 != 0 then [cell_record length width blocks block_data i] else []) := by
  simp only [records_upto, List.range_succ, List.filter_append, List.map_append]
  congr 1
  by_cases h : (blocks.getD i 0 != 0) = true
  · rw [List.filter_cons_of_pos (p := fun i => blocks.getD i 0 != 0) h, if_pos h]
    rfl
  · rw [List.filter_cons_of_neg (p := fun i => blocks.getD i 0 != 0) h, if_neg h]
    rfl

theorem cell_coordinates (length width x z y : Nat) (hx : x < width) (hz : z < length) :
    ((y * length + z) * width + x) % width = x ∧
    ((y * length + z) * width + x) / width % length = z ∧
    ((y * length + z) * width + x) / (width * length) = y := by
  have hw : 0 < width := by omega
  have h1 : ((y * length + z) * width + x) / width = y * length + z := by
    rw [Nat.add_comm, Nat.add_mul_div_right _ _ hw, Nat.div_eq_of_lt hx, Nat.zero_add]
  refine ⟨?_, ?_, ?_⟩
  · rw [Nat.add_comm, Nat.add_mul_mod_self_right, Nat.mod_eq_of_lt hx]
  · rw [h1, Nat.add_comm, Nat.add_mul_mod_self_right, Nat.mod_eq_of_lt hz]
  · rw [← Nat.div_div_eq_div_mul, h1, Nat.add_comm, Nat.add_mul_div_right _ _ (by omega),
      Nat.div_eq_of_lt hz, Nat.zero_add]

theorem loop_body_spec (blocks block_data : List Nat) (length width x z y : Nat) (st : Proj)
    (i : Nat) (hidx : st.index = (i : Int))
    (hx : x < width) (hz : z < length)
    (hi : i = (y * length + z) * width + x)
    (hB : i < blocks.length) (hD : i < block_data.length)
    (hI : i + 1 < 2147483648)
    (he : st.emitted = records_upto length width blocks block_data i) :
    ∃ st', loop_body blocks block_data x z y st = .ok st' ∧ st'.index = ((i + 1 : Nat) : Int) ∧
      st'.emitted = records_upto length width blocks block_data (i + 1) := by
  obtain ⟨c1, c2, c3⟩ := cell_coordinates length width x z y hx hz
  have hb : blocks[i]? = some (blocks.getD i 0) := by
    simp [List.getD, List.getElem?_eq_getElem hB]
  have hd : block_data[i]? = some (block_data.getD i 0) := by
    simp [List.getD, List.getElem?_eq_getElem hD]
  have h0 : (0 : Int) ≤ (i : Int) := by omega
  unfold loop_body
  rw [hidx, if_pos h0, Int.toNat_ofNat, hb, to_int_succ i hI]
  by_cases hne : blocks.getD i 0 ≠ 0
  · have hc : (blocks.getD i 0 != 0) = true := by simpa using hne
    simp only [if_pos hne, hd]
    refine ⟨_, rfl, rfl, ?_⟩
    simp only [records_upto_succ, if_pos hc, he]
    congr 1
    simp only [cell_record, hi, c1, c2, c3]
  · have hc : ¬ (blocks.getD i 0 != 0) = true := by simpa using hne
    simp only [if_neg hne]
    refine ⟨_, rfl, rfl, ?_⟩
    simp only [records_upto_succ, if_neg hc, he, List.append_nil]

theorem loop_x_spec (blocks block_data : List Nat) (length width z y : Nat) (hz : z < length) :
    ∀ (n x : Nat) (st : Proj) (i : Nat), st.index = (i : Int) → x + n = width →
      i = (y * length + z) * width + x →
      i + n ≤ blocks.length → i + n ≤ block_data.length →
      i + n < 2147483648 →
      st.emitted = records_upto length width blocks block_data i →
      ∃ st', loop_x blocks block_data z y n x st = .ok st' ∧ st'.index = ((i + n : Nat) : Int) ∧
        st'.emitted = records_upto length width blocks block_data (i + n) := by
  intro n
  induction n with
  | zero =>
    intro x st i hidx _ _ _ _ _ he
    exact ⟨st, rfl, hidx, he⟩
  | succ n ih =>
    intro x st i hidx hxn hi hB hD hI he
    obtain ⟨st1, h1, hi1, he1⟩ := loop_body_spec blocks block_data length width x z y st i hidx
      (by omega) hz hi (by omega) (by omega) (by omega) he
    obtain ⟨st2, h2, hi2, he2⟩ := ih (x + 1) st1 (i + 1) hi1 (by omega) (by rw [hi]; ring)
      (by omega) (by omega) (by omega) he1
    have e : i + 1 + n = i + (n + 1) := by omega
    rw [e] at hi2 he2
    refine ⟨st2, ?_, hi2, he2⟩
    simp only [loop_x, h1, h2]

theorem loop_z_spec (blocks block_data : List Nat) (length width y : Nat) :
    ∀ (n z : Nat) (st : Proj) (i : Nat), st.index = (i : Int) → z + n = length →
      i = (y * length + z) * width →
      i + n * width ≤ blocks.length → i + n * width ≤ block_data.length →
      i + n * width < 2147483648 →
      st.emitted = records_upto length width blocks block_data i →
      ∃ st', loop_z blocks block_data width y n z st = .ok st' ∧
        st'.index = ((i + n * width : Nat) : Int) ∧
        st'.emitted = records_upto length width blocks block_data (i + n * width) := by
  intro n
  induction n with
  | zero =>
    intro z st i hidx _ _ _ _ _ he
    exact ⟨st, rfl, by simpa using hidx, by simpa using he⟩
  | succ n ih =>
    intro z st i hidx hzn hi hB hD hI he
    have hexp : (n + 1) * width = width + n * width := by ring
    obtain ⟨st1, h1, hi1, he1⟩ := loop_x_spec blocks block_data length width z y (by omega)
      width 0 st i hidx (by omega) (by rw [hi]; ring) (by omega) (by omega) (by omega) he
    obtain ⟨st2, h2, hi2, he2⟩ := ih (z + 1) st1 (i + width) hi1 (by omega)
      (by rw [hi]; ring) (by omega) (by omega) (by omega) he1
    have e : i + width + n * width = i + (n + 1) * width := by omega
    rw [e] at hi2 he2
    refine ⟨st2, ?_, hi2, he2⟩
    simp only [loop_z, h1, h2]

theorem loop_y_spec (blocks block_data : List Nat) (length width : Nat) :
    ∀ (n y : Nat) (st : Proj) (i : Nat), st.index = (i : Int) →
      i = y * length * width →
      i + n * length * width ≤ blocks.length →
      i + n * length * width ≤ block_data.length →
      i + n * length * width < 2147483648 →
      st.emitted = records_upto length width blocks block_data i →
      ∃ st', loop_y blocks block_data length width n y st = .ok st' ∧
        st'.index = ((i + n * length * width : Nat) : Int) ∧
        st'.emitted = records_upto length width blocks block_data (i + n * length * width) := by
  intro n
  induction n with
  | zero =>
    intro y st i hidx _ _ _ _ he
    exact ⟨st, rfl, by simpa using hidx, by simpa using he⟩
  | succ n ih =>
    intro y st i hidx hi hB hD hI he
    have hexp : (n + 1) * length * width = length * width + n * length * width := by ring
    obtain ⟨st1, h1, hi1, he1⟩ := loop_z_spec blocks block_data length width y
      length 0 st i hidx (by omega) (by rw [hi]; ring) (by omega) (by omega) (by omega) he
    obtain ⟨st2, h2, hi2, he2⟩ := ih (y + 1) st1 (i + length * width) hi1
      (by rw [hi]; ring) (by omega) (by omega) (by omega) he1
    have e : i + length * width + n * length * width = i + (n + 1) * length * width := by omega
    rw [e] at hi2 he2
    refine ⟨st2, ?_, hi2, he2⟩
    simp only [loop_y, h1, h2]

theorem loop_body_text (blocks block_data : List Nat) (x z y : Nat) (st : Proj)
    (h : st.f = header ++ render st.emitted) :
    (reached (loop_body blocks block_data x z y st)).f =
      header ++ render (reached (loop_body blocks block_data x z y st)).emitted := by
  unfold loop_body
  by_cases h0 : 0 ≤ st.index
  · rw [if_pos h0]
    cases hb : blocks[st.index.toNat]? with
    | none => simpa [reached] using h
    | some b =>
      by_cases hne : b ≠ 0
      · simp only [if_pos hne]
        cases hd : block_data[st.index.toNat]? with
        | none => simpa [reached] using h
        | some d => simp only [reached, render_snoc, h, String.append_assoc]
      · simp only [if_neg hne]
        simpa [reached] using h
  · rw [if_neg h0]
    simpa [reached] using h

theorem loop_x_text (blocks block_data : List Nat) (z y : Nat) :
    ∀ (n x : Nat) (st : Proj), st.f = header ++ render st.emitted →
      (reached (loop_x blocks block_data z y n x st)).f =
        header ++ render (reached (loop_x blocks block_data z y n x st)).emitted := by
  intro n
  induction n with
  | zero => intro x st h; simpa [loop_x, reached] using h
  | succ n ih =>
    intro x st h
    have hb := loop_body_text blocks block_data x z y st h
    unfold loop_x
    cases hr : loop_body blocks block_data x z y st with
    | error e => rw [hr] at hb; simpa [reached] using hb
    | ok st1 => rw [hr] at hb; exact ih (x + 1) st1 (by simpa [reached] using hb)

theorem loop_z_text (blocks block_data : List Nat) (width y : Nat) :
    ∀ (n z : Nat) (st : Proj), st.f = header ++ render st.emitted →
      (reached (loop_z blocks block_data width y n z st)).f =
        header ++ render (reached (loop_z blocks block_data width y n z st)).emitted := by
  intro n
  induction n with
  | zero => intro z st h; simpa [loop_z, reached] using h
  | succ n ih =>
    intro z st h
    have hb := loop_x_text blocks block_data z y width 0 st h
    unfold loop_z
    cases hr : loop_x blocks block_data z y width 0 st with
    | error e => rw [hr] at hb; simpa [reached] using hb
    | ok st1 => rw [hr] at hb; exact ih (z + 1) st1 (by simpa [reached] using hb)

theorem loop_y_text (blocks block_data : List Nat) (length width : Nat) :
    ∀ (n y : Nat) (st : Proj), st.f = header ++ render st.emitted →
      (reached (loop_y blocks block_data length width n y st)).f =
        header ++ render (reached (loop_y blocks block_data length width n y st)).emitted := by
  intro n
  induction n with
  | zero => intro y st h; simpa [loop_y, reached] using h
  | succ n ih =>
    intro y st h
    have hb := loop_z_text blocks block_data width y length 0 st h
    unfold loop_y
    cases hr : loop_z blocks block_data width y length 0 st with
    | error e => rw [hr] at hb; simpa [reached] using hb
    | ok st1 => rw [hr] at hb; exact ih (y + 1) st1 (by simpa [reached] using hb)

/-- The conversion of a tree in which the five lookups succeed, as the
cascade of the three checks and the loop. -/
theorem convert_tag_found (tag theight tlength twidth tblocks tblock_data : Named_TAG)
    (hH : Named_TAG_find tag (literal "Height") = some theight)
    (hL : Named_TAG_find tag (literal "Length") = some tlength)
    (hW : Named_TAG_find tag (literal "Width") = some twidth)
    (hB : Named_TAG_find tag (literal "Blocks") = some tblocks)
    (hD : Named_TAG_find tag (literal "Data") = some tblock_data) :
    convert_tag tag =
      if Named_TAG_number theight = 0 ∨ Named_TAG_number twidth = 0 ∨
          Named_TAG_number tlength = 0 then .dimensions_messed_up
      else if tblocks.tagType ≠ 7 ∨ tblock_data.tagType ≠ 7 then .incorrect_type
      else if to_uint32 (int_mul (int_mul (Named_TAG_number theight) (Named_TAG_number tlength))
            (Named_TAG_number twidth)) ≠ tblocks.tag.byte_array.1 ∨
          tblocks.tag.byte_array.1 ≠ tblock_data.tag.byte_array.1 then .inconsistent_data
      else
        match loop_y tblocks.tag.byte_array.2 tblock_data.tag.byte_array.2
            (Named_TAG_number tlength).toNat (Named_TAG_number twidth).toNat
            (Named_TAG_number theight).toNat 0 { index := 0, f := header, emitted := [] } with
        | .ok st => .written st.emitted st.f
        | .error st => .out_of_bounds st.emitted st.f := by
  simp only [convert_tag, hH, hL, hW, hB, hD]

theorem convert_file_decoded (fuel : Nat) (file rest : List Nat) (tag : Named_TAG)
    (hdec : Named_TAG_read fuel file = some (tag, rest)) :
    convert_file fuel file = some (convert_tag tag) := by
  simp only [convert_file, hdec]

/-! ## C1: the records of the projection -/

theorem int_product_exact (h l w : Nat) (hw0 : 0 < w) (hp : h * l * w < 2147483648) :
    to_uint32 (int_mul (int_mul (h : Int) (l : Int)) (w : Int)) = h * l * w := by
  have hhl : h * l ≤ h * l * w := Nat.le_mul_of_pos_right _ hw0
  have e1 : int_mul (h : Int) (l : Int) = ((h * l : Nat) : Int) := by
    unfold int_mul
    rw [← Nat.cast_mul]
    exact to_int_of_small _ (by omega) (by omega)
  have e2 : int_mul ((h * l : Nat) : Int) (w : Int) = ((h * l * w : Nat) : Int) := by
    unfold int_mul
    rw [← Nat.cast_mul]
    exact to_int_of_small _ (by omega) (by omega)
  rw [e1, e2]
  exact to_uint32_of_small _ (by omega)

theorem sample_file_decodes : Named_TAG_read 20 sample_file = some (sample_tree, []) := by
  decide!

/-- C1: in a decoded tree in which the lookups find Height, Length and Width
with positive coerced values `h`, `l`, `w` (`h * l * w < 2^31`) and Blocks
and Data as byte arrays of length `h * l * w`, `convert_file` writes the
file, and the records it emits are, in this order, the records
`(i mod w, (i div w) mod l, i div (w * l), Blocks[i], Data[i])` of the
indices `i < h * l * w` with `Blocks[i] ≠ 0`, by ascending `i`; the text of
the file is the header followed by the lines of these records. -/
theorem C1_projection_order (fuel : Nat) (file rest : List Nat)
    (tag theight tlength twidth tblocks tblock_data : Named_TAG)
    (h l w : Nat) (nb nd : Option TAG_String) (blocks block_data : List Nat)
    (hdec : Named_TAG_read fuel file = some (tag, rest))
    (hH : Named_TAG_find tag (literal "Height") = some theight)
    (hL : Named_TAG_find tag (literal "Length") = some tlength)
    (hW : Named_TAG_find tag (literal "Width") = some twidth)
    (hB : Named_TAG_find tag (literal "Blocks") = some tblocks)
    (hD : Named_TAG_find tag (literal "Data") = some tblock_data)
    (hh : Named_TAG_number theight = (h : Int)) (hl : Named_TAG_number tlength = (l : Int))
    (hw : Named_TAG_number twidth = (w : Int))
    (hpos : 0 < h ∧ 0 < l ∧ 0 < w) (hprod : h * l * w < 2 ^ 31)
    (hblocks : tblocks = .mk 7 nb (.byteArray (h * l * w) blocks))
    (hdata : tblock_data = .mk 7 nd (.byteArray (h * l * w) block_data))
    (hblen : blocks.length = h * l * w) (hdlen : block_data.length = h * l * w) :
    convert_file fuel file =
      some (.written (records_upto l w blocks block_data (h * l * w))
        (header ++ render (records_upto l w blocks block_data (h * l * w)))) := by
  obtain ⟨hh0, hl0, hw0⟩ := hpos
  have hp : h * l * w < 2147483648 := by simpa using hprod
  have hmul := int_product_exact h l w hw0 hp
  rw [convert_file_decoded fuel file rest tag hdec,
    convert_tag_found tag theight tlength twidth tblocks tblock_data hH hL hW hB hD]
  have c1 : ¬ ((h : Int) = 0 ∨ (w : Int) = 0 ∨ (l : Int) = 0) := by omega
  have c2 : ¬ (tblocks.tagType ≠ 7 ∨ tblock_data.tagType ≠ 7) := by
    simp [hblocks, hdata, Named_TAG.tagType]
  have eb : tblocks.tag.byte_array = (h * l * w, blocks) := by
    simp [hblocks, Named_TAG.tag, Tag.byte_array]
  have ed : tblock_data.tag.byte_array = (h * l * w, block_data) := by
    simp [hdata, Named_TAG.tag, Tag.byte_array]
  rw [hh, hl, hw, if_neg c1, if_neg c2, eb, ed, hmul]
  simp only [ne_eq, not_true_eq_false, or_self, if_false, Int.toNat_ofNat]
  obtain ⟨st, hrun, hidx, hem⟩ := loop_y_spec blocks block_data l w h 0
    { index := 0, f := header, emitted := [] } 0 rfl (by simp) (by simp; omega)
    (by simp; omega) (by simp; omega) (by simp [records_upto])
  have htxt := loop_y_text blocks block_data l w h 0
    { index := 0, f := header, emitted := [] } (by simp [render])
  rw [hrun] at htxt
  simp only [reached] at htxt
  simp only [hrun]
  rw [htxt, hem, Nat.zero_add]

theorem C1_projection_order_witness :
    convert_file 20 sample_file =
      some (.written (records_upto 1 2 [0, 5, 7, 0] [1, 3, 2, 9] (2 * 1 * 2))
        (header ++ render (records_upto 1 2 [0, 5, 7, 0] [1, 3, 2, 9] (2 * 1 * 2)))) :=
  C1_projection_order 20 sample_file [] sample_tree sample_height sample_length sample_width
    sample_blocks sample_data 2 1 2 _ _ [0, 5, 7, 0] [1, 3, 2, 9]
    sample_file_decodes (by decide) (by decide) (by decide) (by decide) (by decide)
    (by decide) (by decide) (by decide) (by decide) (by decide) rfl rfl (by decide) (by decide)

/-! ## C2: the text of the output file -/

theorem header_eq : header =
    "[META]\nversion=2.0\nspawnElevationMin=0\nspawnElevationMax=128\nrarity=100\ncollisionPercentage=2\n[DATA]\n" := by
  decide

/-- The text of a run that reaches line 433: the header and the lines of
the emitted records. -/
theorem convert_tag_text (tag : Named_TAG) (emitted : List Record) (f : String)
    (h : convert_tag tag = .written emitted f) : f = header ++ render emitted := by
  cases hH : Named_TAG_find tag (literal "Height") with
  | none => simp [convert_tag, hH] at h
  | some theight =>
  cases hL : Named_TAG_find tag (literal "Length") with
  | none => simp [convert_tag, hH, hL] at h
  | some tlength =>
  cases hW : Named_TAG_find tag (literal "Width") with
  | none => simp [convert_tag, hH, hL, hW] at h
  | some twidth =>
  cases hB : Named_TAG_find tag (literal "Blocks") with
  | none => simp [convert_tag, hH, hL, hW, hB] at h
  | some tblocks =>
  cases hD : Named_TAG_find tag (literal "Data") with
  | none => simp [convert_tag, hH, hL, hW, hB, hD] at h
  | some tblock_data =>
    rw [convert_tag_found tag theight tlength twidth tblocks tblock_data hH hL hW hB hD] at h
    split_ifs at h with c1 c2 c3
    have htxt := loop_y_text tblocks.tag.byte_array.2 tblock_data.tag.byte_array.2
      (Named_TAG_number tlength).toNat (Named_TAG_number twidth).toNat
      (Named_TAG_number theight).toNat 0 { index := 0, f := header, emitted := [] }
      (by simp [render])
    revert h htxt
    cases loop_y tblocks.tag.byte_array.2 tblock_data.tag.byte_array.2
      (Named_TAG_number tlength).toNat (Named_TAG_number twidth).toNat
      (Named_TAG_number theight).toNat 0 { index := 0, f := header, emitted := [] } with
    | ok st =>
      intro h htxt
      simp only [Outcome.written.injEq] at h
      simp only [reached] at htxt
      rw [← h.1, ← h.2, htxt]
    | error st =>
      intro h _
      simp at h

/-- C2 fails on the code.  `wrapped_file` holds Height 2, Length 3, Width
715827883 and the byte arrays Blocks = 5 0 and Data = 3 0.  It passes the
four checks, the length check because the `int` product of the dimensions
is 2 modulo `2^32`.  The run writes the header, emits the record
`(0, 0, 0, 5, 3)`, passes the cell of index 1, and in the third iteration
reads `Blocks[2]` behind the end of the array, as every run does whose
`index` is 2 and whose Blocks array has two bytes: line 433 is not reached
in the model and the text of the output file is not determined.  The claim
holds for the runs that reach line 433: their text is the seven fixed lines
followed by the lines `<x>,<z>,<y>:<block>.<meta>` of the emitted records,
and for Width 2, Height 1, Length 1, Blocks = 0 5, Data = 0 3 the DATA
section is the line `1,0,0:5.3`. -/
theorem C2_wrapped_product_leaves_text_undetermined :
    Named_TAG_read 20 wrapped_file = some (wrapped_tree, []) ∧
    Named_TAG_find wrapped_tree (literal "Height") = some (.mk 2 (named "Height") (.short 2)) ∧
    Named_TAG_find wrapped_tree (literal "Length") = some (.mk 2 (named "Length") (.short 3)) ∧
    Named_TAG_find wrapped_tree (literal "Width") =
      some (.mk 3 (named "Width") (.int 715827883)) ∧
    Named_TAG_find wrapped_tree (literal "Blocks") =
      some (.mk 7 (named "Blocks") (.byteArray 2 [5, 0])) ∧
    Named_TAG_find wrapped_tree (literal "Data") =
      some (.mk 7 (named "Data") (.byteArray 2 [3, 0])) ∧
    to_uint32 (int_mul (int_mul 2 3) 715827883) = 2 ∧
    convert_file 20 wrapped_file = some (.out_of_bounds [⟨0, 0, 0, 5, 3⟩]
      "[META]\nversion=2.0\nspawnElevationMin=0\nspawnElevationMax=128\nrarity=100\ncollisionPercentage=2\n[DATA]\n0,0,0:5.3\n") ∧
    (∀ (blocks block_data : List Nat) (x z y : Nat) (st : Proj),
      st.index = 2 → blocks.length = 2 →
      loop_body blocks block_data x z y st = .error st) ∧
    (∀ (fuel : Nat) (file : List Nat) (emitted : List Record) (f : String),
      convert_file fuel file = some (.written emitted f) →
      f = "[META]\nversion=2.0\nspawnElevationMin=0\nspawnElevationMax=128\nrarity=100\ncollisionPercentage=2\n[DATA]\n" ++
        render emitted) ∧
    (∀ (r : Record) (rs : List Record), render (r :: rs) =
      toString r.x ++ "," ++ toString r.z ++ "," ++ toString r.y ++ ":" ++
        toString r.b ++ "." ++ toString r.d ++ "\n" ++ render rs) ∧
    render [] = "" ∧
    convert_file 20 tiny_file = some (.written [⟨1, 0, 0, 5, 3⟩]
      ("[META]\nversion=2.0\nspawnElevationMin=0\nspawnElevationMax=128\nrarity=100\ncollisionPercentage=2\n[DATA]\n" ++
        "1,0,0:5.3\n")) := by
  refine ⟨by decide!, by decide, by decide, by decide, by decide, by decide, by decide,
    by decide!, ?_, ?_, ?_, rfl, by decide!⟩
  · intro blocks block_data x z y st hi hlen
    have hnone : blocks[(2 : Int).toNat]? = none := by
      rw [List.getElem?_eq_none_iff]
      simp [hlen]
    simp only [loop_body, hi, hnone]
    simp
  · intro fuel file emitted f hrun
    unfold convert_file at hrun
    cases hdec : Named_TAG_read fuel file with
    | none => simp [hdec] at hrun
    | some p =>
      obtain ⟨tag, rest⟩ := p
      simp only [hdec, Option.some.injEq] at hrun
      rw [← header_eq]
      exact convert_tag_text tag emitted f hrun
  · intro r rs
    rfl

/-! ## C3: the search order of `Named_TAG_find` -/

mutual
theorem find_eq_find_preorder : ∀ (t : Named_TAG) (q : List Nat),
    Named_TAG_find t q = (preorder t).find? (fun n => name_matches n q)
  | .mk tagType name (.compound c), q => by
    have ih := find_loop_eq_find_preorder c q
    unfold Named_TAG_find preorder
    by_cases hm : name_matches (.mk tagType name (.compound c)) q = true
    · simp [hm]
    · by_cases ht : tagType = 10
      · subst ht
        simp [hm, ih, List.find?]
      · simp [hm, ht]
  | .mk tagType name (.byte v), q => by
    unfold Named_TAG_find preorder
    by_cases hm : name_matches (.mk tagType name (.byte v)) q = true <;>
      by_cases ht : tagType = 10 <;> simp [hm, ht]
  | .mk tagType name (.short v), q => by
    unfold Named_TAG_find preorder
    by_cases hm : name_matches (.mk tagType name (.short v)) q = true <;>
      by_cases ht : tagType = 10 <;> simp [hm, ht]
  | .mk tagType name (.int v), q => by
    unfold Named_TAG_find preorder
    by_cases hm : name_matches (.mk tagType name (.int v)) q = true <;>
      by_cases ht : tagType = 10 <;> simp [hm, ht]
  | .mk tagType name (.long v), q => by
    unfold Named_TAG_find preorder
    by_cases hm : name_matches (.mk tagType name (.long v)) q = true <;>
      by_cases ht : tagType = 10 <;> simp [hm, ht]
  | .mk tagType name (.float v), q => by
    unfold Named_TAG_find preorder
    by_cases hm : name_matches (.mk tagType name (.float v)) q = true <;>
      by_cases ht : tagType = 10 <;> simp [hm, ht]
  | .mk tagType name (.double v), q => by
    unfold Named_TAG_find preorder
    by_cases hm : name_matches (.mk tagType name (.double v)) q = true <;>
      by_cases ht : tagType = 10 <;> simp [hm, ht]
  | .mk tagType name (.byteArray n v), q => by
    unfold Named_TAG_find preorder
    by_cases hm : name_matches (.mk tagType name (.byteArray n v)) q = true <;>
      by_cases ht : tagType = 10 <;> simp [hm, ht]
  | .mk tagType name (.string v), q => by
    unfold Named_TAG_find preorder
    by_cases hm : name_matches (.mk tagType name (.string v)) q = true <;>
      by_cases ht : tagType = 10 <;> simp [hm, ht]
  | .mk tagType name (.list k n v), q => by
    unfold Named_TAG_find preorder
    by_cases hm : name_matches (.mk tagType name (.list k n v)) q = true <;>
      by_cases ht : tagType = 10 <;> simp [hm, ht]
  | .mk tagType name .null, q => by
    unfold Named_TAG_find preorder
    by_cases hm : name_matches (.mk tagType name .null) q = true <;>
      by_cases ht : tagType = 10 <;> simp [hm, ht]
theorem find_loop_eq_find_preorder : ∀ (c : TAG_Compound) (q : List Nat),
    Named_TAG_find_loop c q = (preorder_children c).find? (fun n => name_matches n q)
  | .null, q => by simp [Named_TAG_find_loop, preorder_children]
  | .node t next, q => by
    have ih1 := find_eq_find_preorder t q
    have ih2 := find_loop_eq_find_preorder next q
    unfold Named_TAG_find_loop preorder_children
    rw [List.find?_append, ← ih1, ← ih2]
    cases Named_TAG_find t q <;> simp
end

theorem find_none_iff (t : Named_TAG) (q : List Nat) :
    Named_TAG_find t q = none ↔ ∀ n ∈ preorder t, name_matches n q = false := by
  rw [find_eq_find_preorder, List.find?_eq_none]
  simp

/-- C3 (amended): `Named_TAG_find t n` is the first node of `t`, in
depth-first pre-order with the children of a Compound from left to right,
whose name matches `n` under `strcmp`, that is, whose name bytes up to the
first zero byte are the bytes of `n`; it is not-found exactly when no node
reachable through nested Compounds matches.  A tag three Compounds deep is
found, and of two tags with the same name the one met first in pre-order is
returned, whether it is the deeper or the shallower one. -/
theorem C3_find_first_in_preorder :
    (∀ (t : Named_TAG) (n : List Nat),
      Named_TAG_find t n = (preorder t).find? (fun node => name_matches node n)) ∧
    (∀ (t : Named_TAG) (n : List Nat),
      Named_TAG_find t n = none ↔ ∀ node ∈ preorder t, name_matches node n = false) ∧
    (Named_TAG_read 40 (enc_named deep_tree) = some (deep_tree, []) ∧
      Named_TAG_find deep_tree (literal "X") = some x_int) ∧
    (Named_TAG_read 40 (enc_named shadow_tree) = some (shadow_tree, []) ∧
      Named_TAG_find shadow_tree (literal "X") = some (.mk 1 (some ⟨1, [88, 0]⟩) (.byte 1))) ∧
    (Named_TAG_read 40 (enc_named shallow_first_tree) = some (shallow_first_tree, []) ∧
      Named_TAG_find shallow_first_tree (literal "X") = some (.mk 1 (some ⟨1, [88, 0]⟩) (.byte 2))) :=
  ⟨find_eq_find_preorder, find_none_iff, ⟨by decide!, by decide⟩, ⟨by decide!, by decide⟩,
    ⟨by decide!, by decide⟩⟩

/-- C3 as stated fails when the equality of names is read on the declared
`length` bytes of the name: the file `01 00 03 48 00 58 07` decodes to a
Byte whose name is the three bytes `H`, 0, `X`; no node of the tree has
the name `H`, but the lookup of `H` returns the tag. -/
theorem C3_counterexample :
    Named_TAG_read 10 [1, 0, 3, 72, 0, 88, 7] = some (nul_name_tag, []) ∧
    (preorder nul_name_tag).find? (fun node => name_equals node (literal "H")) = none ∧
    Named_TAG_find nul_name_tag (literal "H") = some nul_name_tag := by
  refine ⟨by decide!, by decide, by decide⟩

/-! ## Decoding inverts the encoding -/

theorem read_ensure_zero (fuel : Nat) (fd : List Nat) (hf : 1 ≤ fuel) :
    read_ensure fuel fd 0 = some ([], fd) := by
  obtain ⟨f, rfl⟩ : ∃ f, fuel = f + 1 := ⟨fuel - 1, by omega⟩
  simp [read_ensure]

theorem read_ensure_append (fuel : Nat) (buf rest : List Nat) (hf : 2 ≤ fuel) :
    read_ensure fuel (buf ++ rest) buf.length = some (buf, rest) := by
  obtain ⟨f, rfl⟩ : ∃ f, fuel = f + 1 := ⟨fuel - 1, by omega⟩
  by_cases h0 : buf.length = 0
  · have : buf = [] := List.length_eq_zero.mp h0
    subst this
    simp [read_ensure]
  · have hmin : min buf.length (buf ++ rest).length = buf.length := by simp
    unfold read_ensure
    rw [if_pos (by omega), hmin, Nat.sub_self, List.drop_left, List.take_left,
      read_ensure_zero f rest (by omega)]
    simp

theorem read_ensure_count (fuel count : Nat) (buf rest : List Nat) (hf : 2 ≤ fuel)
    (hc : buf.length = count) :
    read_ensure fuel (buf ++ rest) count = some (buf, rest) := by
  subst hc
  exact read_ensure_append fuel buf rest hf

theorem TAG_Byte_read_be (fuel v : Nat) (rest : List Nat) (hf : 2 ≤ fuel) (hv : v < 256) :
    TAG_Byte_read fuel (be 1 v ++ rest) = some (v, rest) := by
  unfold TAG_Byte_read
  rw [read_ensure_count fuel 1 (be 1 v) rest hf (be_length 1 v)]
  simp only [be_to_host_be]
  rw [Nat.mod_eq_of_lt (by simpa using hv)]

theorem TAG_Short_read_be (fuel v : Nat) (rest : List Nat) (hf : 2 ≤ fuel) (hv : v < 65536) :
    TAG_Short_read fuel (be 2 v ++ rest) = some (v, rest) := by
  unfold TAG_Short_read
  rw [read_ensure_count fuel 2 (be 2 v) rest hf (be_length 2 v)]
  simp only [be_to_host_be]
  rw [Nat.mod_eq_of_lt (by simpa using hv)]

theorem TAG_Int_read_be (fuel v : Nat) (rest : List Nat) (hf : 2 ≤ fuel) (hv : v < 4294967296) :
    TAG_Int_read fuel (be 4 v ++ rest) = some (v, rest) := by
  unfold TAG_Int_read
  rw [read_ensure_count fuel 4 (be 4 v) rest hf (be_length 4 v)]
  simp only [be_to_host_be]
  rw [Nat.mod_eq_of_lt (by simpa using hv)]

theorem TAG_Long_read_be (fuel v : Nat) (rest : List Nat) (hf : 2 ≤ fuel)
    (hv : v < 18446744073709551616) :
    TAG_Long_read fuel (be 8 v ++ rest) = some (v, rest) := by
  unfold TAG_Long_read
  rw [read_ensure_count fuel 8 (be 8 v) rest hf (be_length 8 v)]
  simp only [be_to_host_be]
  rw [Nat.mod_eq_of_lt (by simpa using hv)]

theorem TAG_String_read_bytes (fuel : Nat) (b rest : List Nat) (hf : 2 ≤ fuel)
    (hb : b.length < 65536) :
    TAG_String_read fuel (be 2 b.length ++ (b ++ rest)) =
      some ({ length := b.length, bytes := b ++ [0] }, rest) := by
  unfold TAG_String_read
  rw [TAG_Short_read_be fuel b.length (b ++ rest) hf hb]
  simp only [read_ensure_append fuel b rest hf]

theorem TAG_Byte_Array_read_bytes (fuel : Nat) (b rest : List Nat) (hf : 2 ≤ fuel)
    (hb : b.length < 4294967296) :
    TAG_Byte_Array_read fuel (be 4 b.length ++ (b ++ rest)) =
      some (.byteArray b.length b, rest) := by
  unfold TAG_Byte_Array_read
  rw [TAG_Int_read_be fuel b.length (b ++ rest) hf hb]
  simp only [read_ensure_append fuel b rest hf]

theorem wf_string_eq (s : TAG_String) (h : wf_string s = true) :
    s.data.length = s.length ∧ s.length < 65536 ∧
      s = { length := s.data.length, bytes := s.data ++ [0] } := by
  simp only [wf_string, Bool.and_eq_true, decide_eq_true_eq] at h
  obtain ⟨⟨h1, h2⟩, h3⟩ := h
  have hl : s.data.length = s.length := by
    simp only [TAG_String.data, List.length_take]
    omega
  refine ⟨hl, h1, ?_⟩
  cases s with
  | mk length bytes =>
    simp only [TAG_String.mk.injEq]
    exact ⟨hl.symm, h3⟩

theorem TAG_String_read_enc (fuel : Nat) (s : TAG_String) (rest : List Nat) (hf : 2 ≤ fuel)
    (h : wf_string s = true) :
    TAG_String_read fuel (enc_string s ++ rest) = some (s, rest) := by
  obtain ⟨h1, h2, h3⟩ := wf_string_eq s h
  have := TAG_String_read_bytes fuel s.data rest hf (by omega)
  rw [← h3] at this
  rw [enc_string, ← h1, List.append_assoc]
  exact this


theorem wf_tag_kind (k : Nat) (t : Tag) (h : wf_tag k t = true) : 1 ≤ k ∧ k ≤ 10 := by
  cases t <;> simp [wf_tag] at h <;> omega

mutual
theorem TAG_read_enc : ∀ (t : Tag) (k fuel : Nat) (rest : List Nat),
    wf_tag k t = true → short_tag t = true → cost_tag t ≤ fuel →
    TAG_read fuel (enc_tag t ++ rest) k = some (t, rest)
  | .byte v, k, fuel, rest, hwf, _, hc => by
    simp only [wf_tag, Bool.and_eq_true, decide_eq_true_eq] at hwf
    obtain ⟨rfl, hv⟩ := hwf
    obtain ⟨f, rfl⟩ : ∃ f, fuel = f + 1 := ⟨fuel - 1, by simp [cost_tag] at hc; omega⟩
    simp only [cost_tag] at hc
    simp only [TAG_read, enc_tag, TAG_Byte_read_be f v rest (by omega) hv]
  | .short v, k, fuel, rest, hwf, _, hc => by
    simp only [wf_tag, Bool.and_eq_true, decide_eq_true_eq] at hwf
    obtain ⟨rfl, hv⟩ := hwf
    obtain ⟨f, rfl⟩ : ∃ f, fuel = f + 1 := ⟨fuel - 1, by simp [cost_tag] at hc; omega⟩
    simp only [cost_tag] at hc
    simp only [TAG_read, enc_tag, TAG_Short_read_be f v rest (by omega) hv]
  | .int v, k, fuel, rest, hwf, _, hc => by
    simp only [wf_tag, Bool.and_eq_true, decide_eq_true_eq] at hwf
    obtain ⟨rfl, hv⟩ := hwf
    obtain ⟨f, rfl⟩ : ∃ f, fuel = f + 1 := ⟨fuel - 1, by simp [cost_tag] at hc; omega⟩
    simp only [cost_tag] at hc
    simp only [TAG_read, enc_tag, TAG_Int_read_be f v rest (by omega) hv]
  | .long v, k, fuel, rest, hwf, _, hc => by
    simp only [wf_tag, Bool.and_eq_true, decide_eq_true_eq] at hwf
    obtain ⟨rfl, hv⟩ := hwf
    obtain ⟨f, rfl⟩ : ∃ f, fuel = f + 1 := ⟨fuel - 1, by simp [cost_tag] at hc; omega⟩
    simp only [cost_tag] at hc
    simp only [TAG_read, enc_tag, TAG_Long_read_be f v rest (by omega) hv]
  | .float raw, k, fuel, rest, hwf, _, hc => by
    simp only [wf_tag, Bool.and_eq_true, decide_eq_true_eq] at hwf
    obtain ⟨rfl, hv⟩ := hwf
    obtain ⟨f, rfl⟩ : ∃ f, fuel = f + 1 := ⟨fuel - 1, by simp [cost_tag] at hc; omega⟩
    simp only [cost_tag] at hc
    simp only [TAG_read, enc_tag, TAG_Float_read, read_ensure_count f 4 raw rest (by omega) hv]
  | .double raw, k, fuel, rest, hwf, _, hc => by
    simp only [wf_tag, Bool.and_eq_true, decide_eq_true_eq] at hwf
    obtain ⟨rfl, hv⟩ := hwf
    obtain ⟨f, rfl⟩ : ∃ f, fuel = f + 1 := ⟨fuel - 1, by simp [cost_tag] at hc; omega⟩
    simp only [cost_tag] at hc
    simp only [TAG_read, enc_tag, TAG_Double_read, read_ensure_count f 8 raw rest (by omega) hv]
  | .byteArray length bytes, k, fuel, rest, hwf, _, hc => by
    simp only [wf_tag, Bool.and_eq_true, decide_eq_true_eq] at hwf
    obtain ⟨⟨rfl, hl⟩, rfl⟩ := hwf
    obtain ⟨f, rfl⟩ : ∃ f, fuel = f + 1 := ⟨fuel - 1, by simp [cost_tag] at hc; omega⟩
    simp only [cost_tag] at hc
    simp only [TAG_read, enc_tag, List.append_assoc,
      TAG_Byte_Array_read_bytes f bytes rest (by omega) hl]
  | .string s, k, fuel, rest, hwf, _, hc => by
    simp only [wf_tag, Bool.and_eq_true, decide_eq_true_eq] at hwf
    obtain ⟨rfl, hs⟩ := hwf
    obtain ⟨f, rfl⟩ : ∃ f, fuel = f + 1 := ⟨fuel - 1, by simp [cost_tag] at hc; omega⟩
    simp only [cost_tag] at hc
    simp only [TAG_read, enc_tag, TAG_String_read_enc f s rest (by omega) hs]
  | .list tagId length tags, k, fuel, rest, hwf, hs, hc => by
    simp only [wf_tag, Bool.and_eq_true, Bool.or_eq_true, decide_eq_true_eq] at hwf
    obtain ⟨⟨⟨⟨rfl, _⟩, h10⟩, hl⟩, ha⟩ := hwf
    simp only [short_tag, Bool.and_eq_true, decide_eq_true_eq] at hs
    simp only [cost_tag] at hc
    obtain ⟨g, rfl⟩ : ∃ g, fuel = g + 1 + 1 := ⟨fuel - 2, by omega⟩
    have ih := TAG_List_loop_enc tags tagId length 0 g rest ha hs.2 (Nat.zero_le _) hs.1
      (by omega)
    rw [Nat.cast_zero] at ih
    simp only [TAG_read, TAG_List_read, enc_tag, List.append_assoc,
      TAG_Byte_read_be g tagId _ (by omega) (by omega),
      TAG_Int_read_be g length _ (by omega) hl, ih]
  | .compound c, k, fuel, rest, hwf, hs, hc => by
    simp only [wf_tag, Bool.and_eq_true, decide_eq_true_eq] at hwf
    obtain ⟨rfl, hw⟩ := hwf
    simp only [short_tag] at hs
    simp only [cost_tag] at hc
    obtain ⟨f, rfl⟩ : ∃ f, fuel = f + 1 := ⟨fuel - 1, by omega⟩
    have ih := TAG_Compound_read_enc c f rest hw hs (by omega)
    simp only [TAG_read, enc_tag, ih]
  | .null, k, fuel, rest, hwf, _, hc => by
    simp [wf_tag] at hwf
theorem TAG_List_loop_enc : ∀ (a : TagArray) (k length i fuel : Nat) (rest : List Nat),
    wf_array k (length - i) a = true → short_array a = true → i ≤ length →
    length < 2147483648 → cost_array a ≤ fuel →
    TAG_List_loop fuel (enc_array a ++ rest) k length (i : Int) = some (a, rest)
  | .nil, k, length, i, fuel, rest, hwf, _, hi, hl, hc => by
    simp only [wf_array, decide_eq_true_eq] at hwf
    have hlt : ¬ i < length := by omega
    simp only [cost_array] at hc
    obtain ⟨f, rfl⟩ : ∃ f, fuel = f + 1 := ⟨fuel - 1, by omega⟩
    simp only [TAG_List_loop, to_uint32_of_small i (by omega), if_neg hlt, enc_array,
      List.nil_append]
  | .cons t ts, k, length, i, fuel, rest, hwf, hs, hi, hl, hc => by
    simp only [wf_array, Bool.and_eq_true, decide_eq_true_eq] at hwf
    obtain ⟨⟨hn, ht⟩, hts⟩ := hwf
    simp only [short_array, Bool.and_eq_true] at hs
    simp only [cost_array] at hc
    obtain ⟨f, rfl⟩ : ∃ f, fuel = f + 1 := ⟨fuel - 1, by omega⟩
    have hlt : i < length := by omega
    have hnext : i + 1 < 2147483648 := by omega
    have h0 : (0 : Int) ≤ (i : Int) := by omega
    have ih1 := TAG_read_enc t k f (enc_array ts ++ rest) ht hs.1 (by omega)
    have ih2 := TAG_List_loop_enc ts k length (i + 1) f rest
      (by rw [← Nat.sub_sub]; exact hts) hs.2 (by omega) hl (by omega)
    simp only [TAG_List_loop, to_uint32_of_small i (by omega), if_pos hlt, if_pos h0,
      to_int_succ i hnext, enc_array, List.append_assoc, ih1, ih2]
theorem Named_TAG_read_enc : ∀ (t : Named_TAG) (fuel : Nat) (rest : List Nat),
    wf_named t = true → short_named t = true → cost_named t ≤ fuel →
    Named_TAG_read fuel (enc_named t ++ rest) = some (t, rest)
  | .mk tagType none tag, fuel, rest, hwf, _, hc => by
    simp [wf_named] at hwf
  | .mk tagType (some name) tag, fuel, rest, hwf, hsh, hc => by
    simp only [wf_named, Bool.and_eq_true] at hwf
    obtain ⟨hs, ht⟩ := hwf
    simp only [short_named] at hsh
    obtain ⟨hk1, hk10⟩ := wf_tag_kind tagType tag ht
    simp only [cost_named] at hc
    obtain ⟨f, rfl⟩ : ∃ f, fuel = f + 1 := ⟨fuel - 1, by omega⟩
    have ih := TAG_read_enc tag tagType f rest ht hsh (by omega)
    have hk0 : ¬ tagType = 0 := by omega
    simp only [Named_TAG_read, enc_named, List.append_assoc,
      TAG_Byte_read_be f tagType _ (by omega) (by omega), if_neg hk0,
      TAG_String_read_enc f name _ (by omega) hs, ih]
theorem TAG_Compound_read_enc : ∀ (c : TAG_Compound) (fuel : Nat) (rest : List Nat),
    wf_compound c = true → short_compound c = true → cost_compound c ≤ fuel →
    TAG_Compound_read fuel (enc_compound c ++ rest) = some (c, rest)
  | .null, fuel, rest, _, _, hc => by
    simp only [cost_compound] at hc
    obtain ⟨g, rfl⟩ : ∃ g, fuel = g + 1 + 1 := ⟨fuel - 2, by omega⟩
    have h0 : enc_compound .null ++ rest = be 1 0 ++ rest := by simp [enc_compound, be]
    simp only [h0, TAG_Compound_read, Named_TAG_read,
      TAG_Byte_read_be g 0 rest (by omega) (by omega), if_true, Named_TAG.tagType]
  | .node t next, fuel, rest, hwf, hs, hc => by
    simp only [wf_compound, Bool.and_eq_true] at hwf
    obtain ⟨ht, hn⟩ := hwf
    simp only [short_compound, Bool.and_eq_true] at hs
    simp only [cost_compound] at hc
    obtain ⟨f, rfl⟩ : ∃ f, fuel = f + 1 := ⟨fuel - 1, by omega⟩
    have ih1 := Named_TAG_read_enc t f (enc_compound next ++ rest) ht hs.1 (by omega)
    have ih2 := TAG_Compound_read_enc next f rest hn hs.2 (by omega)
    have hk : ¬ t.tagType = 0 := by
      cases t with
      | mk tagType name tag =>
        cases name with
        | none => simp [wf_named] at ht
        | some s =>
          simp only [wf_named, Bool.and_eq_true] at ht
          have := wf_tag_kind tagType tag ht.2
          simp only [Named_TAG.tagType]
          omega
    simp only [TAG_Compound_read, enc_compound, List.append_assoc, ih1, if_neg hk, ih2]
end


/-! ## Arrays built from sequences -/

theorem enc_array_of_list (es : List Tag) :
    enc_array (TagArray.of_list es) = enc_payloads es := by
  induction es with
  | nil => simp [TagArray.of_list, enc_array, enc_payloads]
  | cons e es ih => simp [TagArray.of_list, enc_array, enc_payloads, ih]

theorem wf_array_of_list (k : Nat) (es : List Tag) (h : ∀ e ∈ es, wf_tag k e = true) :
    wf_array k es.length (TagArray.of_list es) = true := by
  induction es with
  | nil => simp [TagArray.of_list, wf_array]
  | cons e es ih =>
    simp only [TagArray.of_list, wf_array, Bool.and_eq_true, decide_eq_true_eq, List.length_cons,
      Nat.add_sub_cancel]
    exact ⟨⟨by omega, h e (by simp)⟩, ih (fun u hu => h u (by simp [hu]))⟩

theorem elements_of_list (es : List Tag) : (TagArray.of_list es).elements = es := by
  induction es with
  | nil => simp [TagArray.of_list, TagArray.elements]
  | cons e es ih => simp [TagArray.of_list, TagArray.elements, ih]

/-! ## Lists of more than `2^31` elements -/

theorem read_ensure_low_fuel (fuel count : Nat) (fd : List Nat) (hf : fuel < 2)
    (hc : 0 < count) : read_ensure fuel fd count = none := by
  rcases fuel with _ | _ | f
  · rfl
  · unfold read_ensure
    rw [if_pos hc]
    rfl
  · omega

theorem TAG_Byte_read_cases (fuel v : Nat) (fd : List Nat) (hv : v < 256) :
    TAG_Byte_read fuel (be 1 v ++ fd) = none ∨
      TAG_Byte_read fuel (be 1 v ++ fd) = some (v, fd) := by
  by_cases hf : 2 ≤ fuel
  · exact Or.inr (TAG_Byte_read_be fuel v fd hf hv)
  · left
    simp only [TAG_Byte_read, read_ensure_low_fuel fuel 1 _ (by omega) (by omega)]

theorem TAG_Int_read_cases (fuel v : Nat) (fd : List Nat) (hv : v < 4294967296) :
    TAG_Int_read fuel (be 4 v ++ fd) = none ∨
      TAG_Int_read fuel (be 4 v ++ fd) = some (v, fd) := by
  by_cases hf : 2 ≤ fuel
  · exact Or.inr (TAG_Int_read_be fuel v fd hf hv)
  · left
    simp only [TAG_Int_read, read_ensure_low_fuel fuel 4 _ (by omega) (by omega)]

theorem TAG_String_read_cases (fuel : Nat) (name : TAG_String) (fd : List Nat)
    (h : wf_string name = true) :
    TAG_String_read fuel (enc_string name ++ fd) = none ∨
      TAG_String_read fuel (enc_string name ++ fd) = some (name, fd) := by
  by_cases hf : 2 ≤ fuel
  · exact Or.inr (TAG_String_read_enc fuel name fd hf h)
  · left
    simp only [TAG_String_read, TAG_Short_read,
      read_ensure_low_fuel fuel 2 _ (by omega) (by omega)]

theorem TAG_List_loop_negative (fuel : Nat) (fd : List Nat) (tagId length : Nat)
    (hl : 2147483648 < length) : TAG_List_loop fuel fd tagId length (-2147483648) = none := by
  rcases fuel with _ | f
  · simp only [TAG_List_loop]
  · have hu : to_uint32 (-2147483648) = 2147483648 := by decide
    have hneg : ¬ (0 : Int) ≤ -2147483648 := by decide
    simp only [TAG_List_loop, hu, if_pos hl, if_neg hneg]

theorem to_int_succ_max : to_int (((2147483647 : Nat) : Int) + 1) = -2147483648 := by
  decide

/-- The loop of line 173 gives no result when the list has more than `2^31`
elements: whatever the elements, `i` reaches `2^31 - 1` and wraps to
`-2^31`, the loop goes on, and the next store is before the array, unless a
read does not return before. -/
theorem TAG_List_loop_overflow : ∀ (fuel : Nat) (fd : List Nat) (tagId length i : Nat),
    i < 2147483648 → 2147483648 < length →
    TAG_List_loop fuel fd tagId length (i : Int) = none := by
  intro fuel
  induction fuel with
  | zero =>
    intro fd tagId length i _ _
    simp only [TAG_List_loop]
  | succ f ih =>
    intro fd tagId length i hi hl
    have hlt : i < length := by omega
    have h0 : (0 : Int) ≤ (i : Int) := by omega
    simp only [TAG_List_loop, to_uint32_of_small i (by omega), if_pos hlt, if_pos h0]
    cases TAG_read f fd tagId with
    | none => rfl
    | some p =>
      by_cases hnext : i + 1 < 2147483648
      · simp only [to_int_succ i hnext, ih p.2 tagId length (i + 1) hnext hl]
      · have hi' : i = 2147483647 := by omega
        subst hi'
        simp only [to_int_succ_max, TAG_List_loop_negative f p.2 tagId length hl]

theorem TAG_List_read_long (fuel k n : Nat) (fd : List Nat) (hk : k < 256)
    (h1 : 2147483648 < n) (h2 : n < 4294967296) :
    TAG_List_read fuel (be 1 k ++ (be 4 n ++ fd)) = none := by
  rcases fuel with _ | f
  · simp only [TAG_List_read]
  · rcases TAG_Byte_read_cases f k (be 4 n ++ fd) hk with h | h
    · simp only [TAG_List_read, h]
    · rcases TAG_Int_read_cases f n fd h2 with h' | h'
      · simp only [TAG_List_read, h, h']
      · have hloop := TAG_List_loop_overflow f fd k n 0 (by omega) h1
        rw [Nat.cast_zero] at hloop
        simp only [TAG_List_read, h, h', hloop]

theorem Named_TAG_read_long_list (fuel k n : Nat) (name : TAG_String) (fd : List Nat)
    (hname : wf_string name = true) (hk : k < 256)
    (h1 : 2147483648 < n) (h2 : n < 4294967296) :
    Named_TAG_read fuel (be 1 9 ++ (enc_string name ++ (be 1 k ++ (be 4 n ++ fd)))) = none := by
  rcases fuel with _ | f
  · simp only [Named_TAG_read]
  · have h9 : ¬ (9 : Nat) = 0 := by omega
    rcases TAG_Byte_read_cases f 9 (enc_string name ++ (be 1 k ++ (be 4 n ++ fd)))
      (by omega) with h | h
    · simp only [Named_TAG_read, h]
    · rcases TAG_String_read_cases f name (be 1 k ++ (be 4 n ++ fd)) hname with h' | h'
      · simp only [Named_TAG_read, h, if_neg h9, h']
      · rcases f with _ | g
        · simp only [Named_TAG_read, h, if_neg h9, h', TAG_read]
        · simp only [Named_TAG_read, h, if_neg h9, h', TAG_read,
            TAG_List_read_long g k n fd hk h1 h2]

theorem enc_payloads_bytes (n : Nat) :
    enc_payloads (List.replicate n (Tag.byte 7)) = List.replicate n 7 := by
  induction n with
  | zero => rfl
  | succ n ih =>
    rw [List.replicate_succ, List.replicate_succ, enc_payloads, ih]
    rfl

/-! ## C4: a compound is decoded up to its terminator -/

theorem enc_compound_of_list (ts : List Named_TAG) :
    enc_compound (TAG_Compound.of_list ts) = enc_entries ts ++ [0] := by
  induction ts with
  | nil => simp [TAG_Compound.of_list, enc_compound, enc_entries]
  | cons t ts ih => simp [TAG_Compound.of_list, enc_compound, enc_entries, ih]

theorem wf_compound_of_list (ts : List Named_TAG) (h : ∀ t ∈ ts, wf_named t = true) :
    wf_compound (TAG_Compound.of_list ts) = true := by
  induction ts with
  | nil => simp [TAG_Compound.of_list, wf_compound]
  | cons t ts ih =>
    simp only [TAG_Compound.of_list, wf_compound, Bool.and_eq_true]
    exact ⟨h t (by simp), ih (fun u hu => h u (by simp [hu]))⟩

theorem entries_of_list (ts : List Named_TAG) : (TAG_Compound.of_list ts).entries = ts := by
  induction ts with
  | nil => simp [TAG_Compound.of_list, TAG_Compound.entries]
  | cons t ts ih => simp [TAG_Compound.of_list, TAG_Compound.entries, ih]

theorem short_compound_of_list (ts : List Named_TAG) (h : ∀ t ∈ ts, short_named t = true) :
    short_compound (TAG_Compound.of_list ts) = true := by
  induction ts with
  | nil => simp [TAG_Compound.of_list, short_compound]
  | cons t ts ih =>
    simp only [TAG_Compound.of_list, short_compound, Bool.and_eq_true]
    exact ⟨h t (by simp), ih (fun u hu => h u (by simp [hu]))⟩

theorem wf_byte_list (n : Nat) (hn : n < 4294967296) : wf_tag 9 (byte_list n) = true := by
  have ha := wf_array_of_list 1 (List.replicate n (Tag.byte 7)) (fun e he => by
    rw [List.eq_of_mem_replicate he]
    rfl)
  rw [List.length_replicate] at ha
  simp only [byte_list, wf_tag, Bool.and_eq_true, Bool.or_eq_true, decide_eq_true_eq]
  exact ⟨⟨⟨⟨trivial, Or.inl (Nat.le_refl 1)⟩, by omega⟩, hn⟩, ha⟩

theorem enc_byte_list (n : Nat) :
    enc_tag (byte_list n) = [1] ++ be 4 n ++ List.replicate n 7 := by
  simp only [byte_list, enc_tag, enc_array_of_list, enc_payloads_bytes, List.append_assoc]
  rfl

theorem wf_byte_list_entry (n : Nat) (hn : n < 4294967296) :
    wf_named (byte_list_entry n) = true := by
  simp only [byte_list_entry, wf_named, Bool.and_eq_true]
  exact ⟨by decide, wf_byte_list n hn⟩

theorem enc_byte_list_entry (n : Nat) :
    enc_named (byte_list_entry n) = [9, 0, 1, 76, 1] ++ be 4 n ++ List.replicate n 7 := by
  simp only [byte_list_entry, enc_named, enc_byte_list]
  rfl

theorem TAG_Compound_read_long_list (fuel n : Nat) (s : List Nat)
    (h1 : 2147483648 < n) (h2 : n < 4294967296) :
    TAG_Compound_read fuel (enc_entries [byte_list_entry n] ++ [0] ++ s) = none := by
  have e : enc_entries [byte_list_entry n] ++ [0] ++ s =
      be 1 9 ++ (enc_string ⟨1, [76, 0]⟩ ++ (be 1 1 ++ (be 4 n ++
        (enc_array (TagArray.of_list (List.replicate n (Tag.byte 7))) ++ ([0] ++ s))))) := by
    simp only [enc_entries, byte_list_entry, byte_list, enc_named, enc_tag, List.append_assoc,
      List.append_nil]
  rw [e]
  rcases fuel with _ | f
  · simp only [TAG_Compound_read]
  · simp only [TAG_Compound_read,
      Named_TAG_read_long_list f 1 n ⟨1, [76, 0]⟩ _ (by decide) (by omega) h1 h2]

/-- C4 fails on the code for a compound that holds a list of more than
`2^31` elements.  The List tag named L with 2147483649 Bytes is a
well-formed named tag; its encoding is `09 00 01 4C 01 80 00 00 01` followed
by the 2147483649 payload bytes; for the buffer made of this encoding, the
terminator and any bytes `s`, `TAG_Compound_read` gives no result for any
fuel, where the claim requires the compound with this one entry: the
counter `int i` of the list loop (line 173) wraps from `2^31 - 1` to
`-2^31` and the next element is stored before the array.  For every
sequence `t1 .. tn` of well-formed named tags in which every list, at any
depth, has fewer than `2^31` elements, the claim holds: `TAG_Compound_read`
applied to `enc(t1) ++ ... ++ enc(tn) ++ [0] ++ s` returns, for every fuel
from `cost_compound` on, the compound whose entries are exactly `t1 .. tn`
in this order, and leaves `s` unread; the terminator is consumed and not
stored, and `[0] ++ s` gives the compound without entries. -/
theorem C4_compound_with_long_list :
    wf_named (byte_list_entry 2147483649) = true ∧
    (∀ n : Nat, enc_named (byte_list_entry n) =
      [9, 0, 1, 76, 1] ++ be 4 n ++ List.replicate n 7) ∧
    be 4 2147483649 = [128, 0, 0, 1] ∧
    (∀ (fuel : Nat) (s : List Nat),
      TAG_Compound_read fuel (enc_entries [byte_list_entry 2147483649] ++ [0] ++ s) = none) ∧
    (∀ (ts : List Named_TAG) (s : List Nat) (fuel : Nat),
      (∀ t ∈ ts, wf_named t = true ∧ short_named t = true) →
      cost_compound (TAG_Compound.of_list ts) ≤ fuel →
      TAG_Compound_read fuel (enc_entries ts ++ [0] ++ s) = some (TAG_Compound.of_list ts, s)) ∧
    (∀ ts : List Named_TAG, (TAG_Compound.of_list ts).entries = ts) ∧
    (∀ (s : List Nat) (fuel : Nat), 4 ≤ fuel →
      TAG_Compound_read fuel ([0] ++ s) = some (TAG_Compound.null, s)) ∧
    TAG_Compound.null.entries = [] := by
  have main : ∀ (ts : List Named_TAG) (s : List Nat) (fuel : Nat),
      (∀ t ∈ ts, wf_named t = true ∧ short_named t = true) →
      cost_compound (TAG_Compound.of_list ts) ≤ fuel →
      TAG_Compound_read fuel (enc_entries ts ++ [0] ++ s) =
        some (TAG_Compound.of_list ts, s) := by
    intro ts s fuel hwf hc
    rw [← enc_compound_of_list]
    exact TAG_Compound_read_enc _ fuel s (wf_compound_of_list ts (fun t ht => (hwf t ht).1))
      (short_compound_of_list ts (fun t ht => (hwf t ht).2)) hc
  refine ⟨wf_byte_list_entry 2147483649 (by decide), enc_byte_list_entry, by decide,
    fun fuel s => TAG_Compound_read_long_list fuel 2147483649 s (by decide) (by decide),
    main, entries_of_list, ?_, rfl⟩
  intro s fuel hf
  exact main [] s fuel (by simp) (by simpa [TAG_Compound.of_list, cost_compound] using hf)


/-! ## C5: an integer tag is decoded, found and coerced -/

theorem c_str_append_zero (b : List Nat) : c_str (b ++ [0]) = c_str b := by
  induction b with
  | nil => simp [c_str]
  | cons a b ih =>
    simp only [c_str, List.cons_append] at ih ⊢
    by_cases ha : (a != 0) = true
    · rw [List.takeWhile_cons_of_pos (p := fun c => c != 0) ha,
        List.takeWhile_cons_of_pos (p := fun c => c != 0) ha, ih]
    · rw [List.takeWhile_cons_of_neg (p := fun c => c != 0) ha,
        List.takeWhile_cons_of_neg (p := fun c => c != 0) ha]

theorem c_str_of_no_zero (n : List Nat) (h : ∀ b ∈ n, b ≠ 0) : c_str n = n := by
  induction n with
  | nil => simp [c_str]
  | cons a n ih =>
    have ha : (a != 0) = true := by simpa using h a (by simp)
    simp only [c_str] at ih ⊢
    rw [List.takeWhile_cons_of_pos (p := fun c => c != 0) ha,
      ih (fun b hb => h b (by simp [hb]))]

theorem data_of_read (b : List Nat) :
    TAG_String.data { length := b.length, bytes := b ++ [0] } = b := by
  simp [TAG_String.data]

theorem wf_string_of_read (b : List Nat) (hb : b.length < 65536) :
    wf_string { length := b.length, bytes := b ++ [0] } = true := by
  simp [wf_string, TAG_String.data, hb]

theorem wf_int_tag (k v : Nat) (hk : k = 1 ∨ k = 2 ∨ k = 3 ∨ k = 4)
    (hv : v < 256 ^ int_width k) : wf_tag k (int_tag k v) = true := by
  rcases hk with rfl | rfl | rfl | rfl <;>
    simpa [wf_tag, int_tag, int_width] using hv

theorem short_int_tag (k v : Nat) (hk : k = 1 ∨ k = 2 ∨ k = 3 ∨ k = 4) :
    short_tag (int_tag k v) = true := by
  rcases hk with rfl | rfl | rfl | rfl <;> rfl

theorem enc_int_tag (k v : Nat) (hk : k = 1 ∨ k = 2 ∨ k = 3 ∨ k = 4) :
    enc_tag (int_tag k v) = be (int_width k) v := by
  rcases hk with rfl | rfl | rfl | rfl <;> simp [enc_tag, int_tag, int_width]

theorem cost_int_tag (k v : Nat) (hk : k = 1 ∨ k = 2 ∨ k = 3 ∨ k = 4) :
    cost_tag (int_tag k v) = 3 := by
  rcases hk with rfl | rfl | rfl | rfl <;> simp [cost_tag, int_tag]

theorem number_int_tag (k v : Nat) (name : Option TAG_String)
    (hk : k = 1 ∨ k = 2 ∨ k = 3 ∨ k = 4) :
    Named_TAG_number (.mk k name (int_tag k v)) = to_int v := by
  rcases hk with rfl | rfl | rfl | rfl <;> rfl

theorem preorder_leaf (k : Nat) (name : Option TAG_String) (tag : Tag) (hk : ¬ k = 10) :
    preorder (.mk k name tag) = [.mk k name tag] := by
  cases tag <;> simp [preorder, hk]

theorem preorder_compound (name : Option TAG_String) (c : TAG_Compound) :
    preorder (.mk 10 name (.compound c)) = .mk 10 name (.compound c) :: preorder_children c := by
  rw [preorder, if_pos rfl]

/-- C5 (amended): for every integer kind `k` in 1..4, every value
`v < 2^31` that fits the width of `k`, every name `n` without zero bytes
and of fewer than 65536 bytes, and every root name `r` of fewer than 65536
bytes whose NUL-terminated reading differs from `n`, `Named_TAG_read` (with
fuel 15 or more) decodes the buffer of a root Compound named `r` that holds
one tag of kind `k` named `n` with the big-endian value `v`, and
`Named_TAG_find` with `n` returns on the decoded tree a tag of discriminant
`k` whose `Named_TAG_number` is `v`. -/
theorem C5_decode_find_number (k v fuel : Nat) (r n : List Nat)
    (hk : k = 1 ∨ k = 2 ∨ k = 3 ∨ k = 4) (hv : v < 2 ^ 31) (hfit : v < 256 ^ int_width k)
    (hnz : ∀ b ∈ n, b ≠ 0) (hn : n.length < 65536) (hr : r.length < 65536)
    (hrn : c_str r ≠ n) (hfuel : 15 ≤ fuel) :
    Named_TAG_read fuel (one_int_file r n k v) = some (one_int_tree r n k v, []) ∧
    Named_TAG_find (one_int_tree r n k v) (n ++ [0]) = some (one_int_child n k v) ∧
    (one_int_child n k v).tagType = k ∧
    Named_TAG_number (one_int_child n k v) = (v : Int) := by
  have hk10 : k < 256 ∧ 1 ≤ k ∧ ¬ k = 10 := by omega
  have hq : c_str (n ++ [0]) = n := by rw [c_str_append_zero, c_str_of_no_zero n hnz]
  refine ⟨?_, ?_, rfl, ?_⟩
  · have henc : one_int_file r n k v = enc_named (one_int_tree r n k v) ++ [] := by
      simp only [one_int_file, one_int_tree, one_int_child, enc_named, enc_tag, enc_compound,
        enc_string, data_of_read, enc_int_tag k v hk, be, Nat.mod_eq_of_lt hk10.1]
      simp
    rw [henc]
    apply Named_TAG_read_enc
    · simp only [one_int_tree, one_int_child, wf_named, wf_tag, wf_compound,
        wf_string_of_read r hr, wf_string_of_read n hn, wf_int_tag k v hk hfit]
      simp
    · simp only [one_int_tree, one_int_child, short_named, short_tag, short_compound,
        short_int_tag k v hk]
      simp
    · simp only [one_int_tree, one_int_child, cost_named, cost_tag, cost_compound,
        cost_int_tag k v hk]
      omega
  · rw [find_eq_find_preorder]
    have hpre : preorder (one_int_tree r n k v) =
        [one_int_tree r n k v, one_int_child n k v] := by
      simp only [one_int_tree, one_int_child]
      rw [preorder_compound, preorder_children, preorder_children, preorder_leaf _ _ _ hk10.2.2]
      rfl
    have h1 : strcmp_eq (r ++ [0]) (n ++ [0]) = false := by
      simp only [strcmp_eq, c_str_append_zero r, hq]
      simpa using hrn
    have h2 : strcmp_eq (n ++ [0]) (n ++ [0]) = true := by
      simp [strcmp_eq]
    rw [hpre]
    simp only [List.find?, name_matches, Named_TAG.name, one_int_tree, one_int_child, h1, h2]
  · rw [one_int_child, number_int_tag k v _ hk]
    exact to_int_of_small _ (by omega) (by
      have : v < 2147483648 := by simpa using hv
      omega)

theorem C5_decode_find_number_witness :
    Named_TAG_read 20 (one_int_file [] [88] 3 42) = some (one_int_tree [] [88] 3 42, []) ∧
    Named_TAG_find (one_int_tree [] [88] 3 42) ([88] ++ [0]) = some (one_int_child [88] 3 42) ∧
    (one_int_child [88] 3 42).tagType = 3 ∧
    Named_TAG_number (one_int_child [88] 3 42) = ((42 : Nat) : Int) :=
  C5_decode_find_number 3 42 20 [] [88] (by decide) (by decide) (by decide) (by decide)
    (by decide) (by decide) (by decide) (by decide)

/-- C5 as stated fails: the root name `X`, 0 is different from the name `X`
of the Int, but `strcmp` reads it as `X`, so the lookup of `X` returns the
root Compound (discriminant 10), whose coerced value is 0, not 42. -/
theorem C5_counterexample :
    [88, 0] ≠ [88] ∧
    one_int_file [88, 0] [88] 3 42 = [10, 0, 2, 88, 0, 3, 0, 1, 88, 0, 0, 0, 42, 0] ∧
    Named_TAG_read 20 (one_int_file [88, 0] [88] 3 42) =
      some (.mk 10 (some ⟨2, [88, 0, 0]⟩) (.compound (.node x_int .null)), []) ∧
    Named_TAG_find (.mk 10 (some ⟨2, [88, 0, 0]⟩) (.compound (.node x_int .null))) (literal "X") =
      some (.mk 10 (some ⟨2, [88, 0, 0]⟩) (.compound (.node x_int .null))) ∧
    Named_TAG.tagType (.mk 10 (some ⟨2, [88, 0, 0]⟩) (.compound (.node x_int .null))) ≠ 3 ∧
    Named_TAG_number (.mk 10 (some ⟨2, [88, 0, 0]⟩) (.compound (.node x_int .null))) ≠ 42 := by
  refine ⟨by decide, by decide, by decide!, by decide, by decide, by decide⟩


/-! ## C6: a list is decoded element by element -/

theorem short_array_of_list (es : List Tag) (h : ∀ e ∈ es, short_tag e = true) :
    short_array (TagArray.of_list es) = true := by
  induction es with
  | nil => simp [TagArray.of_list, short_array]
  | cons e es ih =>
    simp only [TagArray.of_list, short_array, Bool.and_eq_true]
    exact ⟨h e (by simp), ih (fun u hu => h u (by simp [hu]))⟩

/-- C6 fails on the code for the counts `n` above `2^31`.  `TAG_List_read`
gives no result, for any fuel, on any payload whose count field holds such
an `n`: the counter `int i` of line 173 wraps from `2^31 - 1` to `-2^31`,
the loop goes on, and the next element is stored before the array, which is
undefined behaviour; an instance is the well-formed List payload of
2147483649 Bytes, `01 80 00 00 01` followed by the 2147483649 payload
bytes.  For the counts below `2^31` the claim holds: for every element kind
`k` in 1..10, every sequence `p1 .. pn` of well-formed unnamed payloads of
kind `k` whose own lists have fewer than `2^31` elements and every byte
string `s`, `TAG_List_read` applied to `[k] ++ be32(n) ++ p1 ++ ... ++ pn
++ s` returns, with enough fuel, the list of element kind `k` and length
`n` whose elements are exactly the decoded payloads in order, each of them
being what `TAG_read` of kind `k` decodes from its bytes, and leaves `s`
unread; the Byte list of count 3 with the bytes 1, 2, 3 decodes to the
three Bytes 1, 2, 3. -/
theorem C6_list_count_wraps_int :
    (∀ (fuel k n : Nat) (fd : List Nat), k < 256 → 2147483648 < n → n < 4294967296 →
      TAG_List_read fuel ([k] ++ be 4 n ++ fd) = none) ∧
    wf_tag 9 (byte_list 2147483649) = true ∧
    (∀ n : Nat, enc_tag (byte_list n) = [1] ++ be 4 n ++ List.replicate n 7) ∧
    be 4 2147483649 = [128, 0, 0, 1] ∧
    (∀ (fuel : Nat) (s : List Nat),
      TAG_List_read fuel (enc_tag (byte_list 2147483649) ++ s) = none) ∧
    (∀ (k fuel : Nat) (es : List Tag) (s : List Nat), 1 ≤ k ∧ k ≤ 10 →
      (∀ e ∈ es, wf_tag k e = true ∧ short_tag e = true) → es.length < 2147483648 →
      3 + cost_array (TagArray.of_list es) ≤ fuel →
      TAG_List_read fuel ([k] ++ be 4 es.length ++ enc_payloads es ++ s) =
        some (.list k es.length (TagArray.of_list es), s) ∧
      (TagArray.of_list es).elements = es ∧
      (∀ e ∈ es, TAG_read (cost_tag e) (enc_tag e) k = some (e, []))) ∧
    TAG_List_read 20 [1, 0, 0, 0, 3, 1, 2, 3] =
      some (.list 1 3 (.cons (.byte 1) (.cons (.byte 2) (.cons (.byte 3) .nil))), []) := by
  have long : ∀ (fuel k n : Nat) (fd : List Nat), k < 256 → 2147483648 < n →
      n < 4294967296 → TAG_List_read fuel ([k] ++ be 4 n ++ fd) = none := by
    intro fuel k n fd hk h1 h2
    have hbe : [k] = be 1 k := by simp [be, Nat.mod_eq_of_lt hk]
    rw [hbe, List.append_assoc]
    exact TAG_List_read_long fuel k n fd hk h1 h2
  refine ⟨long, wf_byte_list 2147483649 (by decide), enc_byte_list, by decide, ?_, ?_,
    by decide!⟩
  · intro fuel s
    rw [enc_byte_list]
    exact long fuel 1 2147483649 _ (by decide) (by decide) (by decide)
  · intro k fuel es s hk hes hn hfuel
    refine ⟨?_, elements_of_list es, ?_⟩
    · have hwf : wf_tag 9 (.list k es.length (TagArray.of_list es)) = true := by
        simp only [wf_tag, Bool.and_eq_true, Bool.or_eq_true, decide_eq_true_eq]
        exact ⟨⟨⟨⟨trivial, Or.inl hk.1⟩, hk.2⟩, by omega⟩,
          wf_array_of_list k es (fun e he => (hes e he).1)⟩
      have hsh : short_tag (.list k es.length (TagArray.of_list es)) = true := by
        simp only [short_tag, Bool.and_eq_true, decide_eq_true_eq]
        exact ⟨hn, short_array_of_list es (fun e he => (hes e he).2)⟩
      have h := TAG_read_enc (.list k es.length (TagArray.of_list es)) 9 (fuel + 1) s hwf hsh
        (by simp only [cost_tag]; omega)
      have hbe : be 1 k = [k] := by simp [be, Nat.mod_eq_of_lt (show k < 256 by omega)]
      simp only [TAG_read, enc_tag, enc_array_of_list, hbe] at h
      simpa [List.append_assoc] using h
    · intro e he
      have h := TAG_read_enc e k (cost_tag e) [] (hes e he).1 (hes e he).2 (Nat.le_refl _)
      simpa using h

/-! ## C7: strings and byte arrays are read by their length prefix -/

/-- C7: for every byte string `b` of length `L < 2^16` and every suffix
`s`, `TAG_String_read` on `be16(L) ++ b ++ s` returns the declared length
`L` and the buffer `b ++ [0]`, whose first `L` bytes are exactly `b`, zero
bytes inside `b` included, and leaves `s` unread; for every `b` of length
`L < 2^32`, `TAG_Byte_Array_read` on `be32(L) ++ b ++ s` returns the length
`L` and exactly the bytes `b` and leaves `s` unread.  Both hold for every
fuel from 2 on. -/
theorem C7_length_prefixed :
    (∀ (b s : List Nat) (fuel : Nat), b.length < 65536 → 2 ≤ fuel →
      TAG_String_read fuel (be 2 b.length ++ b ++ s) =
        some ({ length := b.length, bytes := b ++ [0] }, s)) ∧
    (∀ b : List Nat, TAG_String.data { length := b.length, bytes := b ++ [0] } = b) ∧
    (∀ (b s : List Nat) (fuel : Nat), b.length < 4294967296 → 2 ≤ fuel →
      TAG_Byte_Array_read fuel (be 4 b.length ++ b ++ s) = some (.byteArray b.length b, s)) ∧
    TAG_String_read 2 [0, 3, 65, 0, 66, 9] = some ({ length := 3, bytes := [65, 0, 66, 0] }, [9]) ∧
    TAG_Byte_Array_read 2 [0, 0, 0, 3, 65, 0, 66, 9] = some (.byteArray 3 [65, 0, 66], [9]) := by
  refine ⟨?_, data_of_read, ?_, by decide, by decide⟩
  · intro b s fuel hb hf
    rw [List.append_assoc]
    exact TAG_String_read_bytes fuel b s hf hb
  · intro b s fuel hb hf
    rw [List.append_assoc]
    exact TAG_Byte_Array_read_bytes fuel b s hf hb

theorem C7_length_prefixed_witness :
    TAG_String_read 2 (be 2 [65, 0, 66].length ++ [65, 0, 66] ++ [9]) =
      some ({ length := [65, 0, 66].length, bytes := [65, 0, 66] ++ [0] }, [9]) :=
  C7_length_prefixed.1 [65, 0, 66] [9] 2 (by decide) (by decide)


/-! ## C8: the coercion to `int` -/

/-- C8 (amended): for every named tag with discriminant 1, 2, 3 or 4 and
every stored value `v < 2^31`, `Named_TAG_number` returns `v` itself.  (The
result is a C `int`; every Byte and every Short is below `2^31`.) -/
theorem C8_number_of_small (k v : Nat) (name : Option TAG_String)
    (hk : k = 1 ∨ k = 2 ∨ k = 3 ∨ k = 4) (hv : v < 2 ^ 31) :
    Named_TAG_number (.mk k name (int_tag k v)) = (v : Int) := by
  rw [number_int_tag k v name hk]
  exact to_int_of_small _ (by omega) (by
    have : v < 2147483648 := by simpa using hv
    omega)

theorem C8_number_of_small_witness :
    Named_TAG_number (.mk 4 (named "X") (int_tag 4 2147483647)) = ((2147483647 : Nat) : Int) :=
  C8_number_of_small 4 2147483647 (named "X") (by decide) (by decide)

/-- C8 as stated fails: the Int `FF FF FF FF` named X decodes to the stored
value 4294967295 and is coerced to -1, and a Long with the stored value
`2^32` is coerced to 0. -/
theorem C8_counterexample :
    Named_TAG_read 10 [3, 0, 1, 88, 255, 255, 255, 255] =
      some (.mk 3 (named "X") (.int 4294967295), []) ∧
    Named_TAG_number (.mk 3 (named "X") (.int 4294967295)) = -1 ∧
    Named_TAG_read 10 [4, 0, 1, 88, 0, 0, 0, 1, 0, 0, 0, 0] =
      some (.mk 4 (named "X") (.long 4294967296), []) ∧
    Named_TAG_number (.mk 4 (named "X") (.long 4294967296)) = 0 := by
  refine ⟨by decide!, by decide, by decide!, by decide⟩

/-! ## C9: the length check -/

theorem sample_decodes :
    Named_TAG_read 20 mismatch_file = some (mismatch_tree, []) ∧
    Named_TAG_read 20 zero_height_file = some (zero_height_tree, []) ∧
    Named_TAG_read 20 negative_file = some (negative_tree, []) := by
  refine ⟨by decide!, by decide!, by decide!⟩

/-- Inside the range of `int` the length check of line 403 works: in a
decoded tree in which the five lookups succeed, the three dimensions coerce
to strictly positive values `h`, `l`, `w` with `h * l * w < 2^31`, and
Blocks and Data are byte arrays, if the length of Blocks differs from the
length of Data, or either differs from `h * l * w`, `convert_file` ends
with the diagnostic of line 405 and opens no output file. -/
theorem length_check_in_int_range (fuel : Nat) (file rest : List Nat)
    (tag theight tlength twidth tblocks tblock_data : Named_TAG)
    (h l w : Nat) (nb nd : Option TAG_String) (lb ld : Nat) (blocks block_data : List Nat)
    (hdec : Named_TAG_read fuel file = some (tag, rest))
    (hH : Named_TAG_find tag (literal "Height") = some theight)
    (hL : Named_TAG_find tag (literal "Length") = some tlength)
    (hW : Named_TAG_find tag (literal "Width") = some twidth)
    (hB : Named_TAG_find tag (literal "Blocks") = some tblocks)
    (hD : Named_TAG_find tag (literal "Data") = some tblock_data)
    (hh : Named_TAG_number theight = (h : Int)) (hl : Named_TAG_number tlength = (l : Int))
    (hw : Named_TAG_number twidth = (w : Int))
    (hpos : 0 < h ∧ 0 < l ∧ 0 < w) (hprod : h * l * w < 2 ^ 31)
    (hblocks : tblocks = .mk 7 nb (.byteArray lb blocks))
    (hdata : tblock_data = .mk 7 nd (.byteArray ld block_data))
    (hbad : lb ≠ ld ∨ lb ≠ h * l * w ∨ ld ≠ h * l * w) :
    convert_file fuel file = some .inconsistent_data ∧
      Outcome.text .inconsistent_data = none := by
  obtain ⟨hh0, hl0, hw0⟩ := hpos
  have hp : h * l * w < 2147483648 := by simpa using hprod
  have hmul := int_product_exact h l w hw0 hp
  rw [convert_file_decoded fuel file rest tag hdec,
    convert_tag_found tag theight tlength twidth tblocks tblock_data hH hL hW hB hD]
  have c1 : ¬ ((h : Int) = 0 ∨ (w : Int) = 0 ∨ (l : Int) = 0) := by omega
  have c2 : ¬ (tblocks.tagType ≠ 7 ∨ tblock_data.tagType ≠ 7) := by
    simp [hblocks, hdata, Named_TAG.tagType]
  have eb : tblocks.tag.byte_array = (lb, blocks) := by
    simp [hblocks, Named_TAG.tag, Tag.byte_array]
  have ed : tblock_data.tag.byte_array = (ld, block_data) := by
    simp [hdata, Named_TAG.tag, Tag.byte_array]
  have c3 : h * l * w ≠ lb ∨ lb ≠ ld := by omega
  rw [hh, hl, hw, if_neg c1, if_neg c2, eb, ed, hmul, if_pos c3]
  exact ⟨rfl, rfl⟩

/-- C9 fails on the code.  In the tree decoded from `overflow_file` the
five lookups succeed, the dimensions coerce to 65536, 65536 and 1, and
Blocks and Data are byte arrays of length 0.  The product of the dimensions
is `2^32`, which differs from the length 0 of both arrays, so that the claim
requires the failure of line 405; but the `int` product of line 403 is 0
modulo `2^32`, the check is passed, no diagnostic is printed, and the run
goes on to open the output file and to enter the loop.  The witness of the
claim, Blocks of length 4 with the product 8, is rejected as claimed. -/
theorem C9_wrapped_product_passes_length_check :
    Named_TAG_read 20 overflow_file = some (overflow_tree, []) ∧
    Named_TAG_find overflow_tree (literal "Height") =
      some (.mk 3 (named "Height") (.int 65536)) ∧
    Named_TAG_find overflow_tree (literal "Length") =
      some (.mk 3 (named "Length") (.int 65536)) ∧
    Named_TAG_find overflow_tree (literal "Width") = some (.mk 2 (named "Width") (.short 1)) ∧
    Named_TAG_find overflow_tree (literal "Blocks") =
      some (.mk 7 (named "Blocks") (.byteArray 0 [])) ∧
    Named_TAG_find overflow_tree (literal "Data") =
      some (.mk 7 (named "Data") (.byteArray 0 [])) ∧
    Named_TAG_number (.mk 3 (named "Height") (.int 65536)) *
        Named_TAG_number (.mk 3 (named "Length") (.int 65536)) *
        Named_TAG_number (.mk 2 (named "Width") (.short 1)) = 4294967296 ∧
    int_mul (int_mul (Named_TAG_number (.mk 3 (named "Height") (.int 65536)))
        (Named_TAG_number (.mk 3 (named "Length") (.int 65536))))
      (Named_TAG_number (.mk 2 (named "Width") (.short 1))) = 0 ∧
    convert_file 20 overflow_file = some (convert_tag overflow_tree) ∧
    convert_tag overflow_tree ≠ .inconsistent_data ∧
    (∀ filename : String, (convert_tag overflow_tree).diagnostic filename = "") ∧
    convert_file 20 mismatch_file = some .inconsistent_data := by
  have hrun : convert_tag overflow_tree = .out_of_bounds [] header := by decide!
  have hdec : Named_TAG_read 20 overflow_file = some (overflow_tree, []) := by decide!
  refine ⟨hdec, by decide, by decide, by decide, by decide, by decide,
    by decide, by decide, convert_file_decoded 20 overflow_file [] overflow_tree hdec, ?_, ?_,
    by decide!⟩
  · rw [hrun]
    exact fun h => Outcome.noConfusion h
  · intro filename
    rw [hrun]
    rfl

/-! ## C10: the dimension check -/

/-- C10 fails on the code: in the tree decoded from `negative_file` the five
lookups succeed and Height and Length coerce to -1, which is not strictly
positive, but the run passes the check of line 388, which only tests for
0, passes the length check (the product is 1) and writes an output file
that holds the header and no record. -/
theorem C10_negative_dimension_accepted :
    Named_TAG_read 20 negative_file = some (negative_tree, []) ∧
    Named_TAG_find negative_tree (literal "Height") =
      some (.mk 3 (named "Height") (.int 4294967295)) ∧
    Named_TAG_number (.mk 3 (named "Height") (.int 4294967295)) = -1 ∧
    Named_TAG_find negative_tree (literal "Length") =
      some (.mk 3 (named "Length") (.int 4294967295)) ∧
    Named_TAG_number (.mk 3 (named "Length") (.int 4294967295)) = -1 ∧
    convert_file 20 negative_file = some (.written []
      "[META]\nversion=2.0\nspawnElevationMin=0\nspawnElevationMax=128\nrarity=100\ncollisionPercentage=2\n[DATA]\n") := by
  refine ⟨sample_decodes.2.2, by decide, by decide, by decide, by decide, by decide!⟩


/-! ## C11: a zero height is rejected before the arrays are looked at -/

theorem more_samples_decode :
    Named_TAG_read 20 missing_height_file = some (missing_height_tree, []) ∧
    Named_TAG_read 20 missing_data_file = some (missing_data_tree, []) ∧
    Named_TAG_read 20 zero_height_odd_file = some (zero_height_odd_tree, []) ∧
    Named_TAG_read 20 wrong_type_file = some (wrong_type_tree, []) ∧
    Named_TAG_read 20 overflow_file = some (overflow_tree, []) ∧
    Named_TAG_read 20 unknown_kind_file = some (unknown_kind_tree, []) ∧
    Named_TAG_read 20 sample_file_alt = some (sample_tree_alt, []) := by
  refine ⟨by decide!, by decide!, by decide!, by decide!, by decide!, by decide!, by decide!⟩

/-- C11: in a decoded tree in which the five lookups succeed and Height
coerces to 0, `convert_file` ends with the diagnostic of line 389 and opens
no output file, whatever the tags found for Blocks and Data are: nothing is
assumed about their kinds, lengths or contents. -/
theorem C11_zero_height (fuel : Nat) (file rest : List Nat)
    (tag theight tlength twidth tblocks tblock_data : Named_TAG)
    (hdec : Named_TAG_read fuel file = some (tag, rest))
    (hH : Named_TAG_find tag (literal "Height") = some theight)
    (hL : Named_TAG_find tag (literal "Length") = some tlength)
    (hW : Named_TAG_find tag (literal "Width") = some twidth)
    (hB : Named_TAG_find tag (literal "Blocks") = some tblocks)
    (hD : Named_TAG_find tag (literal "Data") = some tblock_data)
    (hzero : Named_TAG_number theight = 0) :
    convert_file fuel file = some .dimensions_messed_up ∧
      Outcome.text .dimensions_messed_up = none := by
  rw [convert_file_decoded fuel file rest tag hdec,
    convert_tag_found tag theight tlength twidth tblocks tblock_data hH hL hW hB hD,
    if_pos (Or.inl hzero)]
  exact ⟨rfl, rfl⟩

theorem C11_zero_height_witness :
    convert_file 20 zero_height_odd_file = some .dimensions_messed_up ∧
      Outcome.text .dimensions_messed_up = none :=
  C11_zero_height 20 zero_height_odd_file [] zero_height_odd_tree
    (.mk 2 (named "Height") (.short 0)) (.mk 2 (named "Length") (.short 1))
    (.mk 2 (named "Width") (.short 1)) (.mk 8 (named "Blocks") (.string ⟨2, [97, 98, 0]⟩))
    (.mk 7 (named "Data") (.byteArray 3 [1, 2, 3]))
    more_samples_decode.2.2.1 (by decide) (by decide) (by decide) (by decide) (by decide)
    (by decide)

/-! ## C12: a missing tag -/

theorem convert_tag_missing_iff (tag : Named_TAG) :
    convert_tag tag = .missing_vital_tag ↔
      (Named_TAG_find tag (literal "Height") = none ∨
        Named_TAG_find tag (literal "Length") = none ∨
        Named_TAG_find tag (literal "Width") = none ∨
        Named_TAG_find tag (literal "Blocks") = none ∨
        Named_TAG_find tag (literal "Data") = none) := by
  cases hH : Named_TAG_find tag (literal "Height") with
  | none => simp [convert_tag, hH]
  | some theight =>
  cases hL : Named_TAG_find tag (literal "Length") with
  | none => simp [convert_tag, hH, hL]
  | some tlength =>
  cases hW : Named_TAG_find tag (literal "Width") with
  | none => simp [convert_tag, hH, hL, hW]
  | some twidth =>
  cases hB : Named_TAG_find tag (literal "Blocks") with
  | none => simp [convert_tag, hH, hL, hW, hB]
  | some tblocks =>
  cases hD : Named_TAG_find tag (literal "Data") with
  | none => simp [convert_tag, hH, hL, hW, hB, hD]
  | some tblock_data =>
    rw [convert_tag_found tag theight tlength twidth tblocks tblock_data hH hL hW hB hD]
    simp only [reduceCtorEq, or_self, iff_false]
    split_ifs
    · simp
    · simp
    · simp
    · cases loop_y tblocks.tag.byte_array.2 tblock_data.tag.byte_array.2
        (Named_TAG_number tlength).toNat (Named_TAG_number twidth).toNat
        (Named_TAG_number theight).toNat 0 { index := 0, f := header, emitted := [] } <;> simp

/-- C12 (amended): for every decoded tree, `convert_file` ends with the
diagnostic of line 379 exactly when the lookup of at least one of the names
Height, Length, Width, Blocks, Data finds nothing; the run then opens no
output file, and the diagnostic is the file name followed by the fixed text
` missing a vital tag`: it does not name the missing tag.  If all five are
found the run does not end there. -/
theorem C12_missing_tag :
    (∀ (fuel : Nat) (file rest : List Nat) (tag : Named_TAG),
      Named_TAG_read fuel file = some (tag, rest) →
      (convert_file fuel file = some .missing_vital_tag ↔
        (Named_TAG_find tag (literal "Height") = none ∨
          Named_TAG_find tag (literal "Length") = none ∨
          Named_TAG_find tag (literal "Width") = none ∨
          Named_TAG_find tag (literal "Blocks") = none ∨
          Named_TAG_find tag (literal "Data") = none))) ∧
    Outcome.text .missing_vital_tag = none ∧
    (∀ filename : String,
      Outcome.diagnostic filename .missing_vital_tag = filename ++ " missing a vital tag\n") := by
  refine ⟨?_, rfl, fun _ => rfl⟩
  intro fuel file rest tag hdec
  rw [convert_file_decoded fuel file rest tag hdec, Option.some.injEq]
  exact convert_tag_missing_iff tag

theorem C12_missing_tag_witness :
    convert_file 20 missing_data_file = some .missing_vital_tag :=
  (C12_missing_tag.1 20 missing_data_file [] missing_data_tree more_samples_decode.2.1).mpr
    (Or.inr (Or.inr (Or.inr (Or.inr (by decide)))))

/-- C12 as stated fails: the file without Height and the file without Data
have different first missing names, but the two runs end in the same way
and print the same diagnostic, so the failure does not identify the first
missing name. -/
theorem C12_counterexample :
    Named_TAG_read 20 missing_height_file = some (missing_height_tree, []) ∧
    Named_TAG_read 20 missing_data_file = some (missing_data_tree, []) ∧
    first_missing missing_height_tree = some "Height" ∧
    first_missing missing_data_tree = some "Data" ∧
    convert_file 20 missing_height_file = convert_file 20 missing_data_file ∧
    Outcome.diagnostic "a.schematic" (convert_tag missing_height_tree) =
      Outcome.diagnostic "a.schematic" (convert_tag missing_data_tree) := by
  refine ⟨more_samples_decode.1, more_samples_decode.2.1, by decide, by decide, by decide!,
    by decide!⟩

/-! ## C13: the type check -/

/-- C13: in a decoded tree in which the five lookups succeed and the three
dimensions coerce to strictly positive values: if the tag found for Blocks
or the tag found for Data has a discriminant other than 7, `convert_file`
ends with the diagnostic of line 395 and opens no output file.  Nothing is
assumed about the payloads of the two tags, which the run does not look
at. -/
theorem C13_wrong_type (fuel : Nat) (file rest : List Nat)
    (tag theight tlength twidth tblocks tblock_data : Named_TAG)
    (hdec : Named_TAG_read fuel file = some (tag, rest))
    (hH : Named_TAG_find tag (literal "Height") = some theight)
    (hL : Named_TAG_find tag (literal "Length") = some tlength)
    (hW : Named_TAG_find tag (literal "Width") = some twidth)
    (hB : Named_TAG_find tag (literal "Blocks") = some tblocks)
    (hD : Named_TAG_find tag (literal "Data") = some tblock_data)
    (hpos : 0 < Named_TAG_number theight ∧ 0 < Named_TAG_number tlength ∧
      0 < Named_TAG_number twidth)
    (hbad : tblocks.tagType ≠ 7 ∨ tblock_data.tagType ≠ 7) :
    convert_file fuel file = some .incorrect_type ∧ Outcome.text .incorrect_type = none := by
  have c1 : ¬ (Named_TAG_number theight = 0 ∨ Named_TAG_number twidth = 0 ∨
      Named_TAG_number tlength = 0) := by omega
  rw [convert_file_decoded fuel file rest tag hdec,
    convert_tag_found tag theight tlength twidth tblocks tblock_data hH hL hW hB hD,
    if_neg c1, if_pos hbad]
  exact ⟨rfl, rfl⟩

theorem C13_wrong_type_witness :
    convert_file 20 wrong_type_file = some .incorrect_type ∧
      Outcome.text .incorrect_type = none :=
  C13_wrong_type 20 wrong_type_file [] wrong_type_tree
    (.mk 2 (named "Height") (.short 1)) (.mk 2 (named "Length") (.short 1))
    (.mk 2 (named "Width") (.short 1)) (.mk 8 (named "Blocks") (.string ⟨2, [97, 98, 0]⟩))
    (.mk 7 (named "Data") (.byteArray 1 [3]))
    more_samples_decode.2.2.2.1 (by decide) (by decide) (by decide) (by decide) (by decide)
    (by decide) (by decide)


/-! ## C14: a read behind the end of the input -/

theorem read_ensure_short : ∀ (fuel : Nat) (fd : List Nat) (count : Nat),
    fd.length < count → read_ensure fuel fd count = none := by
  intro fuel
  induction fuel with
  | zero => intro fd count _; rfl
  | succ f ih =>
    intro fd count h
    have hmin : min count fd.length = fd.length := by omega
    have hrec := ih (fd.drop fd.length) (count - fd.length) (by simp; omega)
    unfold read_ensure
    rw [if_pos (by omega), hmin, hrec]

theorem TAG_Short_read_cases (fuel L : Nat) (fd : List Nat) (hL : L < 65536) :
    TAG_Short_read fuel (be 2 L ++ fd) = none ∨
      TAG_Short_read fuel (be 2 L ++ fd) = some (L, fd) := by
  by_cases hf : 2 ≤ fuel
  · exact Or.inr (TAG_Short_read_be fuel L fd hf hL)
  · left
    have hlen : (be 2 L ++ fd).length = 2 + fd.length := by simp [be_length]
    unfold TAG_Short_read
    rcases fuel with _ | _ | f
    · rfl
    · have : read_ensure 1 (be 2 L ++ fd) 2 = none := by
        unfold read_ensure
        rw [if_pos (by omega)]
        have hmin : min 2 (be 2 L ++ fd).length = 2 := by omega
        rw [hmin]
        rfl
      rw [this]
    · omega

theorem TAG_String_read_short (fuel L : Nat) (b : List Nat) (hL : L < 65536)
    (hb : b.length < L) : TAG_String_read fuel (be 2 L ++ b) = none := by
  unfold TAG_String_read
  rcases TAG_Short_read_cases fuel L b hL with h | h
  · rw [h]
  · rw [h]
    simp only [read_ensure_short fuel b L hb]

/-- C14 fails on the code: when the input ends before the `count` bytes of
a read are there, the loop of `read_ensure` does not return for any amount
of fuel (at the end of the file `read` returns 0, which is not below 0, and
`count` stays positive), and so does every read built on it; in particular
`TAG_String_read` on a buffer that declares a String of length 10 and holds
4 more bytes does not return, where the claim requires the failure
TruncatedInput. -/
theorem C14_truncated_read_never_returns :
    (∀ (fuel : Nat) (fd : List Nat) (count : Nat),
      fd.length < count → read_ensure fuel fd count = none) ∧
    (∀ (fuel L : Nat) (b : List Nat), L < 65536 → b.length < L →
      TAG_String_read fuel (be 2 L ++ b) = none) ∧
    (∀ fuel : Nat, TAG_String_read fuel [0, 10, 1, 2, 3, 4] = none) ∧
    TAG_String_read 2 [0, 10, 1, 2, 3, 4, 5, 6, 7, 8, 9, 10] =
      some ({ length := 10, bytes := [1, 2, 3, 4, 5, 6, 7, 8, 9, 10, 0] }, []) := by
  refine ⟨read_ensure_short, fun fuel L b hL hb => TAG_String_read_short fuel L b hL hb, ?_,
    by decide⟩
  intro fuel
  exact TAG_String_read_short fuel 10 [1, 2, 3, 4] (by decide) (by decide)

/-! ## C15: an unknown tag type -/

theorem TAG_read_unknown (fuel k : Nat) (fd : List Nat) (hf : 1 ≤ fuel)
    (hk : k = 0 ∨ 10 < k) : TAG_read fuel fd k = some (.null, fd) := by
  obtain ⟨f, rfl⟩ : ∃ f, fuel = f + 1 := ⟨fuel - 1, by omega⟩
  unfold TAG_read
  split <;> first | omega | rfl

theorem Named_TAG_read_unknown (fuel k : Nat) (name : TAG_String) (rest : List Nat)
    (hf : 3 ≤ fuel) (hk : 10 < k ∧ k < 256) (hname : wf_string name = true) :
    Named_TAG_read fuel (be 1 k ++ (enc_string name ++ rest)) =
      some (.mk k (some name) .null, rest) := by
  obtain ⟨f, rfl⟩ : ∃ f, fuel = f + 1 := ⟨fuel - 1, by omega⟩
  have hk0 : ¬ k = 0 := by omega
  simp only [Named_TAG_read, TAG_Byte_read_be f k _ (by omega) hk.2, if_neg hk0,
    TAG_String_read_enc f name rest (by omega) hname,
    TAG_read_unknown f k rest (by omega) (Or.inr hk.1)]

/-! ## Decoding the lenient format -/

mutual
theorem TAG_read_lenient : ∀ (t : Tag) (k fuel : Nat) (rest : List Nat),
    lenient_tag k t = true → cost_tag t ≤ fuel →
    TAG_read fuel (enc_tag t ++ rest) k = some (t, rest)
  | .byte v, k, fuel, rest, hwf, hc => by
    simp only [lenient_tag, Bool.and_eq_true, decide_eq_true_eq] at hwf
    obtain ⟨rfl, hv⟩ := hwf
    obtain ⟨f, rfl⟩ : ∃ f, fuel = f + 1 := ⟨fuel - 1, by simp [cost_tag] at hc; omega⟩
    simp only [cost_tag] at hc
    simp only [TAG_read, enc_tag, TAG_Byte_read_be f v rest (by omega) hv]
  | .short v, k, fuel, rest, hwf, hc => by
    simp only [lenient_tag, Bool.and_eq_true, decide_eq_true_eq] at hwf
    obtain ⟨rfl, hv⟩ := hwf
    obtain ⟨f, rfl⟩ : ∃ f, fuel = f + 1 := ⟨fuel - 1, by simp [cost_tag] at hc; omega⟩
    simp only [cost_tag] at hc
    simp only [TAG_read, enc_tag, TAG_Short_read_be f v rest (by omega) hv]
  | .int v, k, fuel, rest, hwf, hc => by
    simp only [lenient_tag, Bool.and_eq_true, decide_eq_true_eq] at hwf
    obtain ⟨rfl, hv⟩ := hwf
    obtain ⟨f, rfl⟩ : ∃ f, fuel = f + 1 := ⟨fuel - 1, by simp [cost_tag] at hc; omega⟩
    simp only [cost_tag] at hc
    simp only [TAG_read, enc_tag, TAG_Int_read_be f v rest (by omega) hv]
  | .long v, k, fuel, rest, hwf, hc => by
    simp only [lenient_tag, Bool.and_eq_true, decide_eq_true_eq] at hwf
    obtain ⟨rfl, hv⟩ := hwf
    obtain ⟨f, rfl⟩ : ∃ f, fuel = f + 1 := ⟨fuel - 1, by simp [cost_tag] at hc; omega⟩
    simp only [cost_tag] at hc
    simp only [TAG_read, enc_tag, TAG_Long_read_be f v rest (by omega) hv]
  | .float raw, k, fuel, rest, hwf, hc => by
    simp only [lenient_tag, Bool.and_eq_true, decide_eq_true_eq] at hwf
    obtain ⟨rfl, hv⟩ := hwf
    obtain ⟨f, rfl⟩ : ∃ f, fuel = f + 1 := ⟨fuel - 1, by simp [cost_tag] at hc; omega⟩
    simp only [cost_tag] at hc
    simp only [TAG_read, enc_tag, TAG_Float_read, read_ensure_count f 4 raw rest (by omega) hv]
  | .double raw, k, fuel, rest, hwf, hc => by
    simp only [lenient_tag, Bool.and_eq_true, decide_eq_true_eq] at hwf
    obtain ⟨rfl, hv⟩ := hwf
    obtain ⟨f, rfl⟩ : ∃ f, fuel = f + 1 := ⟨fuel - 1, by simp [cost_tag] at hc; omega⟩
    simp only [cost_tag] at hc
    simp only [TAG_read, enc_tag, TAG_Double_read, read_ensure_count f 8 raw rest (by omega) hv]
  | .byteArray length bytes, k, fuel, rest, hwf, hc => by
    simp only [lenient_tag, Bool.and_eq_true, decide_eq_true_eq] at hwf
    obtain ⟨⟨rfl, hl⟩, rfl⟩ := hwf
    obtain ⟨f, rfl⟩ : ∃ f, fuel = f + 1 := ⟨fuel - 1, by simp [cost_tag] at hc; omega⟩
    simp only [cost_tag] at hc
    simp only [TAG_read, enc_tag, List.append_assoc,
      TAG_Byte_Array_read_bytes f bytes rest (by omega) hl]
  | .string s, k, fuel, rest, hwf, hc => by
    simp only [lenient_tag, Bool.and_eq_true, decide_eq_true_eq] at hwf
    obtain ⟨rfl, hs⟩ := hwf
    obtain ⟨f, rfl⟩ : ∃ f, fuel = f + 1 := ⟨fuel - 1, by simp [cost_tag] at hc; omega⟩
    simp only [cost_tag] at hc
    simp only [TAG_read, enc_tag, TAG_String_read_enc f s rest (by omega) hs]
  | .list tagId length tags, k, fuel, rest, hwf, hc => by
    simp only [lenient_tag, Bool.and_eq_true, decide_eq_true_eq] at hwf
    obtain ⟨⟨⟨rfl, h256⟩, hl⟩, ha⟩ := hwf
    simp only [cost_tag] at hc
    obtain ⟨g, rfl⟩ : ∃ g, fuel = g + 1 + 1 := ⟨fuel - 2, by omega⟩
    have ih := TAG_List_loop_lenient tags tagId length 0 g rest ha (Nat.zero_le _) hl
      (by omega)
    rw [Nat.cast_zero] at ih
    simp only [TAG_read, TAG_List_read, enc_tag, List.append_assoc,
      TAG_Byte_read_be g tagId _ (by omega) (by omega),
      TAG_Int_read_be g length _ (by omega) (by omega), ih]
  | .compound c, k, fuel, rest, hwf, hc => by
    simp only [lenient_tag, Bool.and_eq_true, decide_eq_true_eq] at hwf
    obtain ⟨rfl, hw⟩ := hwf
    simp only [cost_tag] at hc
    obtain ⟨f, rfl⟩ : ∃ f, fuel = f + 1 := ⟨fuel - 1, by omega⟩
    have ih := TAG_Compound_read_lenient c f rest hw (by omega)
    simp only [TAG_read, enc_tag, ih]
  | .null, k, fuel, rest, hwf, hc => by
    simp only [lenient_tag, decide_eq_true_eq] at hwf
    simp only [cost_tag] at hc
    simp only [enc_tag, List.nil_append]
    exact TAG_read_unknown fuel k rest (by omega) hwf
theorem TAG_List_loop_lenient : ∀ (a : TagArray) (k length i fuel : Nat) (rest : List Nat),
    lenient_array k (length - i) a = true → i ≤ length → length < 2147483648 →
    cost_array a ≤ fuel →
    TAG_List_loop fuel (enc_array a ++ rest) k length (i : Int) = some (a, rest)
  | .nil, k, length, i, fuel, rest, hwf, hi, hl, hc => by
    simp only [lenient_array, decide_eq_true_eq] at hwf
    have hlt : ¬ i < length := by omega
    simp only [cost_array] at hc
    obtain ⟨f, rfl⟩ : ∃ f, fuel = f + 1 := ⟨fuel - 1, by omega⟩
    simp only [TAG_List_loop, to_uint32_of_small i (by omega), if_neg hlt, enc_array,
      List.nil_append]
  | .cons t ts, k, length, i, fuel, rest, hwf, hi, hl, hc => by
    simp only [lenient_array, Bool.and_eq_true, decide_eq_true_eq] at hwf
    obtain ⟨⟨hn, ht⟩, hts⟩ := hwf
    simp only [cost_array] at hc
    obtain ⟨f, rfl⟩ : ∃ f, fuel = f + 1 := ⟨fuel - 1, by omega⟩
    have hlt : i < length := by omega
    have hnext : i + 1 < 2147483648 := by omega
    have h0 : (0 : Int) ≤ (i : Int) := by omega
    have ih1 := TAG_read_lenient t k f (enc_array ts ++ rest) ht (by omega)
    have ih2 := TAG_List_loop_lenient ts k length (i + 1) f rest
      (by rw [← Nat.sub_sub]; exact hts) (by omega) hl (by omega)
    simp only [TAG_List_loop, to_uint32_of_small i (by omega), if_pos hlt, if_pos h0,
      to_int_succ i hnext, enc_array, List.append_assoc, ih1, ih2]
theorem Named_TAG_read_lenient : ∀ (t : Named_TAG) (fuel : Nat) (rest : List Nat),
    lenient_named t = true → cost_named t ≤ fuel →
    Named_TAG_read fuel (enc_named t ++ rest) = some (t, rest)
  | .mk tagType none tag, fuel, rest, hwf, hc => by
    simp [lenient_named] at hwf
  | .mk tagType (some name) tag, fuel, rest, hwf, hc => by
    simp only [lenient_named, Bool.and_eq_true, decide_eq_true_eq] at hwf
    obtain ⟨⟨⟨hk1, hk256⟩, hs⟩, ht⟩ := hwf
    simp only [cost_named] at hc
    obtain ⟨f, rfl⟩ : ∃ f, fuel = f + 1 := ⟨fuel - 1, by omega⟩
    have ih := TAG_read_lenient tag tagType f rest ht (by omega)
    have hk0 : ¬ tagType = 0 := by omega
    simp only [Named_TAG_read, enc_named, List.append_assoc,
      TAG_Byte_read_be f tagType _ (by omega) (by omega), if_neg hk0,
      TAG_String_read_enc f name _ (by omega) hs, ih]
theorem TAG_Compound_read_lenient : ∀ (c : TAG_Compound) (fuel : Nat) (rest : List Nat),
    lenient_compound c = true → cost_compound c ≤ fuel →
    TAG_Compound_read fuel (enc_compound c ++ rest) = some (c, rest)
  | .null, fuel, rest, hwf, hc => by
    simp only [cost_compound] at hc
    obtain ⟨g, rfl⟩ : ∃ g, fuel = g + 1 + 1 := ⟨fuel - 2, by omega⟩
    have h0 : enc_compound .null ++ rest = be 1 0 ++ rest := by simp [enc_compound, be]
    simp only [h0, TAG_Compound_read, Named_TAG_read,
      TAG_Byte_read_be g 0 rest (by omega) (by omega), if_true, Named_TAG.tagType]
  | .node t next, fuel, rest, hwf, hc => by
    simp only [lenient_compound, Bool.and_eq_true] at hwf
    obtain ⟨ht, hn⟩ := hwf
    simp only [cost_compound] at hc
    obtain ⟨f, rfl⟩ : ∃ f, fuel = f + 1 := ⟨fuel - 1, by omega⟩
    have ih1 := Named_TAG_read_lenient t f (enc_compound next ++ rest) ht (by omega)
    have ih2 := TAG_Compound_read_lenient next f rest hn (by omega)
    have hk : ¬ t.tagType = 0 := by
      cases t with
      | mk tagType name tag =>
        cases name with
        | none => simp [lenient_named] at ht
        | some s =>
          simp only [lenient_named, Bool.and_eq_true, decide_eq_true_eq] at ht
          simp only [Named_TAG.tagType]
          omega
    simp only [TAG_Compound_read, enc_compound, List.append_assoc, ih1, if_neg hk, ih2]
end

mutual
theorem lenient_of_wf_tag : ∀ (t : Tag) (k : Nat),
    wf_tag k t = true → short_tag t = true → lenient_tag k t = true
  | .byte _, _, h, _ => by simpa [wf_tag, lenient_tag] using h
  | .short _, _, h, _ => by simpa [wf_tag, lenient_tag] using h
  | .int _, _, h, _ => by simpa [wf_tag, lenient_tag] using h
  | .long _, _, h, _ => by simpa [wf_tag, lenient_tag] using h
  | .float _, _, h, _ => by simpa [wf_tag, lenient_tag] using h
  | .double _, _, h, _ => by simpa [wf_tag, lenient_tag] using h
  | .byteArray _ _, _, h, _ => by simpa [wf_tag, lenient_tag] using h
  | .string _, _, h, _ => by simpa [wf_tag, lenient_tag] using h
  | .list tagId length tags, k, h, hs => by
    simp only [wf_tag, Bool.and_eq_true, Bool.or_eq_true, decide_eq_true_eq] at h
    obtain ⟨⟨⟨⟨hk, _⟩, h10⟩, _⟩, ha⟩ := h
    simp only [short_tag, Bool.and_eq_true, decide_eq_true_eq] at hs
    simp only [lenient_tag, Bool.and_eq_true, decide_eq_true_eq]
    exact ⟨⟨⟨hk, by omega⟩, hs.1⟩, lenient_of_wf_array tags tagId length ha hs.2⟩
  | .compound c, k, h, hs => by
    simp only [wf_tag, Bool.and_eq_true, decide_eq_true_eq] at h
    simp only [short_tag] at hs
    simp only [lenient_tag, Bool.and_eq_true, decide_eq_true_eq]
    exact ⟨h.1, lenient_of_wf_compound c h.2 hs⟩
  | .null, _, h, _ => by simp [wf_tag] at h
theorem lenient_of_wf_array : ∀ (a : TagArray) (k n : Nat),
    wf_array k n a = true → short_array a = true → lenient_array k n a = true
  | .nil, _, _, h, _ => by simpa [wf_array, lenient_array] using h
  | .cons t ts, k, n, h, hs => by
    simp only [wf_array, Bool.and_eq_true, decide_eq_true_eq] at h
    simp only [short_array, Bool.and_eq_true] at hs
    simp only [lenient_array, Bool.and_eq_true, decide_eq_true_eq]
    exact ⟨⟨h.1.1, lenient_of_wf_tag t k h.1.2 hs.1⟩, lenient_of_wf_array ts k (n - 1) h.2 hs.2⟩
theorem lenient_of_wf_named : ∀ (t : Named_TAG),
    wf_named t = true → short_named t = true → lenient_named t = true
  | .mk _ none _, h, _ => by simp [wf_named] at h
  | .mk tagType (some name) tag, h, hs => by
    simp only [wf_named, Bool.and_eq_true] at h
    simp only [short_named] at hs
    have hk := wf_tag_kind tagType tag h.2
    simp only [lenient_named, Bool.and_eq_true, decide_eq_true_eq]
    exact ⟨⟨⟨by omega, by omega⟩, h.1⟩, lenient_of_wf_tag tag tagType h.2 hs⟩
theorem lenient_of_wf_compound : ∀ (c : TAG_Compound),
    wf_compound c = true → short_compound c = true → lenient_compound c = true
  | .null, _, _ => by simp [lenient_compound]
  | .node t next, h, hs => by
    simp only [wf_compound, Bool.and_eq_true] at h
    simp only [short_compound, Bool.and_eq_true] at hs
    simp only [lenient_compound, Bool.and_eq_true]
    exact ⟨lenient_of_wf_named t h.1 hs.1, lenient_of_wf_compound next h.2 hs.2⟩
end

/-- C15 (amended): a named tag whose discriminant `k` is outside 0..10 (a
byte, so `10 < k < 256`) does not make `Named_TAG_read` fail.  Once the
discriminant and the name are read, the call returns the tag with its
discriminant, its name and an absent payload, and leaves every byte behind
the name unread, whatever these bytes are.  Inside a Compound, at any
nesting depth, the bytes behind the name are therefore decoded as the
entries that follow: such a tag, encoded by its discriminant and its name
alone, is part of the lenient format, as is every well-formed tag whose
lists have fewer than `2^31` elements, and for every tree `t` of the
lenient format `Named_TAG_read`, with fuel from `cost_named t` on, returns
from the bytes of `t`, followed by any bytes `rest`, the whole tree `t` and
leaves `rest` unread.  Nothing is said of an input that ends inside a
tag. -/
theorem C15_unknown_kind_is_kept :
    (∀ (fuel k : Nat) (name : TAG_String) (rest : List Nat),
      3 ≤ fuel → 10 < k → k < 256 → wf_string name = true →
      Named_TAG_read fuel (be 1 k ++ (enc_string name ++ rest)) =
        some (.mk k (some name) .null, rest)) ∧
    (∀ (t : Named_TAG) (fuel : Nat) (rest : List Nat),
      lenient_named t = true → cost_named t ≤ fuel →
      Named_TAG_read fuel (enc_named t ++ rest) = some (t, rest)) ∧
    (∀ (k : Nat) (name : TAG_String), 10 < k → k < 256 → wf_string name = true →
      lenient_named (.mk k (some name) .null) = true ∧
      enc_named (.mk k (some name) .null) = be 1 k ++ enc_string name) ∧
    (∀ t : Named_TAG, wf_named t = true → short_named t = true → lenient_named t = true) := by
  refine ⟨?_, Named_TAG_read_lenient, ?_, lenient_of_wf_named⟩
  · intro fuel k name rest hf h10 h256 hname
    exact Named_TAG_read_unknown fuel k name rest hf ⟨h10, h256⟩ hname
  · intro k name h10 h256 hname
    refine ⟨?_, ?_⟩
    · simp only [lenient_named, lenient_tag, Bool.and_eq_true, decide_eq_true_eq]
      exact ⟨⟨⟨by omega, h256⟩, hname⟩, Or.inr h10⟩
    · simp [enc_named, enc_tag]

theorem C15_unknown_kind_is_kept_witness :
    Named_TAG_read 60 (enc_named nested_unknown_tree ++ []) = some (nested_unknown_tree, []) :=
  C15_unknown_kind_is_kept.2.1 nested_unknown_tree 60 [] (by decide) (by decide)

/-- C15 as stated fails: the file `0A 00 00 0B 00 01 55 03 00 01 58 00 00 00
2A 00` has a tag of the unknown kind 11 in its root, but `Named_TAG_read`
returns a tree, in which the unknown tag is an entry with an absent payload
and the bytes behind it were decoded as its sibling, the Int X = 42, which
the lookup finds. -/
theorem C15_counterexample :
    unknown_kind_file = [10, 0, 0, 11, 0, 1, 85, 3, 0, 1, 88, 0, 0, 0, 42, 0] ∧
    Named_TAG_read 20 unknown_kind_file =
      some (root_of [.mk 11 (named "U") .null, x_int], []) ∧
    Named_TAG_find (root_of [.mk 11 (named "U") .null, x_int]) (literal "X") = some x_int := by
  refine ⟨by decide, by decide!, by decide⟩


/-! ## C16: a list of element kind 0 -/

theorem TAG_List_loop_zero_kind : ∀ (m fuel length i : Nat) (fd : List Nat),
    i + m = length → length < 2147483648 → m + 1 ≤ fuel →
    TAG_List_loop fuel fd 0 length (i : Int) = some (TagArray.nulls m, fd) := by
  intro m
  induction m with
  | zero =>
    intro fuel length i fd him hl hf
    obtain ⟨f, rfl⟩ : ∃ f, fuel = f + 1 := ⟨fuel - 1, by omega⟩
    have hlt : ¬ i < length := by omega
    simp only [TAG_List_loop, to_uint32_of_small i (by omega), if_neg hlt, TagArray.nulls]
  | succ m ih =>
    intro fuel length i fd him hl hf
    obtain ⟨f, rfl⟩ : ∃ f, fuel = f + 1 := ⟨fuel - 1, by omega⟩
    have hlt : i < length := by omega
    have hnext : i + 1 < 2147483648 := by omega
    have h0 : (0 : Int) ≤ (i : Int) := by omega
    simp only [TAG_List_loop, to_uint32_of_small i (by omega), if_pos hlt, if_pos h0,
      to_int_succ i hnext, TAG_read_unknown f 0 fd (by omega) (Or.inl rfl),
      ih f length (i + 1) fd (by omega) hl (by omega), TagArray.nulls]

/-- C16 (amended): for every List payload whose element kind byte is 0 and
every count `n < 2^31`, the decode does not fail: with fuel `n + 3` or more
`TAG_List_read` returns the list of element kind 0 and length `n` whose `n`
elements are all absent, and consumes no byte for them; for `n = 0` this is
the empty list and no element is decoded. -/
theorem C16_zero_kind_list :
    (∀ (n fuel : Nat) (rest : List Nat), n < 2147483648 → n + 3 ≤ fuel →
      TAG_List_read fuel ([0] ++ be 4 n ++ rest) = some (.list 0 n (TagArray.nulls n), rest)) ∧
    (∀ n : Nat, (TagArray.nulls n).elements = List.replicate n Tag.null) ∧
    (∀ (fuel : Nat) (rest : List Nat), 3 ≤ fuel →
      TAG_List_read fuel ([0, 0, 0, 0, 0] ++ rest) = some (.list 0 0 .nil, rest)) := by
  have main : ∀ (n fuel : Nat) (rest : List Nat), n < 2147483648 → n + 3 ≤ fuel →
      TAG_List_read fuel ([0] ++ be 4 n ++ rest) =
        some (.list 0 n (TagArray.nulls n), rest) := by
    intro n fuel rest hn hf
    obtain ⟨f, rfl⟩ : ∃ f, fuel = f + 1 := ⟨fuel - 1, by omega⟩
    have h0 : [0] ++ be 4 n ++ rest = be 1 0 ++ (be 4 n ++ rest) := by simp [be]
    have hloop := TAG_List_loop_zero_kind n f n 0 rest (by omega) hn (by omega)
    rw [Nat.cast_zero] at hloop
    simp only [h0, TAG_List_read, TAG_Byte_read_be f 0 _ (by omega) (by omega),
      TAG_Int_read_be f n rest (by omega) (by omega), hloop]
  refine ⟨main, ?_, ?_⟩
  · intro n
    induction n with
    | zero => rfl
    | succ n ih => simp [TagArray.nulls, TagArray.elements, ih, List.replicate_succ]
  · intro fuel rest hf
    have := main 0 fuel rest (by omega) (by omega)
    simpa [be, TagArray.nulls] using this

theorem C16_zero_kind_list_witness :
    TAG_List_read 5 ([0] ++ be 4 2 ++ [9, 9]) = some (.list 0 2 (TagArray.nulls 2), [9, 9]) :=
  C16_zero_kind_list.1 2 5 [9, 9] (by decide) (by decide)

/-- C16 as stated fails in its second half: the List payload `00 00 00 00
02` (element kind 0, count 2) followed by the bytes 9, 9 does not make the
decode fail; `TAG_List_read` returns a list of two absent elements and
leaves the two bytes unread. -/
theorem C16_counterexample :
    TAG_List_read 5 [0, 0, 0, 0, 2, 9, 9] =
      some (.list 0 2 (.cons .null (.cons .null .nil)), [9, 9]) := by
  decide

/-! ## C17: the coercion of a tag that is not an integer -/

/-- C18 fails on the code: in the tree decoded from `overflow_file` the five
lookups succeed, the dimensions 65536, 65536 and 1 are accepted, both
arrays are of kind 7 and of length 0, and the length check is passed
because the `int` product `65536 * 65536 * 1` is 0 modulo `2^32`; the first
iteration of the loop then reads `Blocks[0]`, behind the end of the empty
array. -/
theorem C18_overflow_reads_out_of_bounds :
    Named_TAG_read 20 overflow_file = some (overflow_tree, []) ∧
    Named_TAG_find overflow_tree (literal "Height") =
      some (.mk 3 (named "Height") (.int 65536)) ∧
    Named_TAG_find overflow_tree (literal "Length") =
      some (.mk 3 (named "Length") (.int 65536)) ∧
    Named_TAG_find overflow_tree (literal "Width") = some (.mk 2 (named "Width") (.short 1)) ∧
    Named_TAG_find overflow_tree (literal "Blocks") =
      some (.mk 7 (named "Blocks") (.byteArray 0 [])) ∧
    Named_TAG_find overflow_tree (literal "Data") =
      some (.mk 7 (named "Data") (.byteArray 0 [])) ∧
    to_uint32 (int_mul (int_mul 65536 65536) 1) = 0 ∧
    loop_body [] [] 0 0 0 { index := 0, f := header, emitted := [] } =
      .error { index := 0, f := header, emitted := [] } ∧
    convert_file 20 overflow_file = some (.out_of_bounds []
      "[META]\nversion=2.0\nspawnElevationMin=0\nspawnElevationMax=128\nrarity=100\ncollisionPercentage=2\n[DATA]\n") := by
  refine ⟨more_samples_decode.2.2.2.2.1, by decide, by decide, by decide, by decide, by decide,
    by decide, rfl, by decide!⟩

/-! ## C19: names are compared as C strings -/

theorem c_str_prefix (q s : List Nat) (hq : ∀ b ∈ q, b ≠ 0) : c_str (q ++ 0 :: s) = q := by
  induction q with
  | nil => simp [c_str]
  | cons a q ih =>
    have ha : (a != 0) = true := by simpa using hq a (by simp)
    simp only [c_str, List.cons_append] at ih ⊢
    rw [List.takeWhile_cons_of_pos (p := fun c => c != 0) ha,
      ih (fun b hb => hq b (by simp [hb]))]

theorem find_of_first_match (t node : Named_TAG) (q : List Nat) (pre post : List Named_TAG)
    (hpre : preorder t = pre ++ node :: post)
    (hearlier : ∀ m ∈ pre, name_matches m q = false) (hnode : name_matches node q = true) :
    Named_TAG_find t q = some node := by
  rw [find_eq_find_preorder, hpre, List.find?_append]
  have h1 : List.find? (fun n => name_matches n q) pre = none := by
    rw [List.find?_eq_none]
    intro m hm
    simp [hearlier m hm]
  rw [h1]
  simp [List.find?, hnode]

/-- C19: `Named_TAG_find` compares names as NUL-terminated strings.  For
every query `q` without zero bytes and every decoded tag whose name bytes
are `q ++ [0] ++ r`, the tag matches `q`, and the lookup returns it when no
earlier node in pre-order matches, although the declared length and the
bytes of the name differ from `q`; a decoded tag matches `q` exactly when
its name bytes up to the first zero byte, or all of them if there is none,
are `q`. -/
theorem C19_names_compared_as_c_strings (q r : List Nat) (k : Nat) (tag : Tag)
    (hq : ∀ b ∈ q, b ≠ 0) :
    name_matches (.mk k (some ⟨(q ++ [0] ++ r).length, q ++ [0] ++ r ++ [0]⟩) tag) (q ++ [0]) =
      true ∧
    (∀ (t : Named_TAG) (pre post : List Named_TAG),
      preorder t =
        pre ++ .mk k (some ⟨(q ++ [0] ++ r).length, q ++ [0] ++ r ++ [0]⟩) tag :: post →
      (∀ m ∈ pre, name_matches m (q ++ [0]) = false) →
      Named_TAG_find t (q ++ [0]) =
        some (.mk k (some ⟨(q ++ [0] ++ r).length, q ++ [0] ++ r ++ [0]⟩) tag)) ∧
    (q ++ [0] ++ r).length ≠ q.length ∧ q ++ [0] ++ r ≠ q ∧
    (∀ (j : Nat) (data : List Nat) (payload : Tag),
      name_matches (.mk j (some ⟨data.length, data ++ [0]⟩) payload) (q ++ [0]) = true ↔
        data.takeWhile (fun c => c != 0) = q) := by
  have hquery : c_str (q ++ [0]) = q := by rw [c_str_append_zero, c_str_of_no_zero q hq]
  have hname : c_str (q ++ [0] ++ r ++ [0]) = q := by
    have : q ++ [0] ++ r ++ [0] = q ++ 0 :: (r ++ [0]) := by simp
    rw [this, c_str_prefix q _ hq]
  have hmatch : name_matches
      (.mk k (some ⟨(q ++ [0] ++ r).length, q ++ [0] ++ r ++ [0]⟩) tag) (q ++ [0]) = true := by
    simp only [name_matches, Named_TAG.name, strcmp_eq, hname, hquery]
    simp
  refine ⟨hmatch, ?_, ?_, ?_, ?_⟩
  · intro t pre post hpre hearlier
    exact find_of_first_match t _ (q ++ [0]) pre post hpre hearlier hmatch
  · simp
  · intro h
    have := congrArg List.length h
    simp at this
  · intro j data payload
    simp only [name_matches, Named_TAG.name, strcmp_eq, hquery, c_str_append_zero data]
    simp [c_str]

theorem C19_names_compared_as_c_strings_witness :
    name_matches (.mk 1 (some ⟨([72] ++ [0] ++ [88]).length, [72] ++ [0] ++ [88] ++ [0]⟩) (.byte 7))
        ([72] ++ [0]) = true ∧
    (∀ (t : Named_TAG) (pre post : List Named_TAG),
      preorder t =
        pre ++ .mk 1 (some ⟨([72] ++ [0] ++ [88]).length, [72] ++ [0] ++ [88] ++ [0]⟩)
          (.byte 7) :: post →
      (∀ m ∈ pre, name_matches m ([72] ++ [0]) = false) →
      Named_TAG_find t ([72] ++ [0]) =
        some (.mk 1 (some ⟨([72] ++ [0] ++ [88]).length, [72] ++ [0] ++ [88] ++ [0]⟩)
          (.byte 7))) ∧
    ([72] ++ [0] ++ [88]).length ≠ [72].length ∧ [72] ++ [0] ++ [88] ≠ [72] ∧
    (∀ (j : Nat) (data : List Nat) (payload : Tag),
      name_matches (.mk j (some ⟨data.length, data ++ [0]⟩) payload) ([72] ++ [0]) = true ↔
        data.takeWhile (fun c => c != 0) = [72]) :=
  C19_names_compared_as_c_strings [72] [88] 1 (.byte 7) (by decide)


/-! ## C20: the metadata of air cells is not looked at -/

theorem loop_body_air (blocks d1 d2 : List Nat)
    (h : ∀ i : Nat, blocks.getD i 0 ≠ 0 → d1[i]? = d2[i]?) (x z y : Nat) (st : Proj) :
    loop_body blocks d1 x z y st = loop_body blocks d2 x z y st := by
  unfold loop_body
  cases hb : blocks[st.index.toNat]? with
  | none => rfl
  | some b =>
    by_cases hne : b ≠ 0
    · have hg : blocks.getD st.index.toNat 0 = b := by simp [List.getD, hb]
      simp only [if_pos hne, h st.index.toNat (by rw [hg]; exact hne)]
    · simp only [if_neg hne]

theorem loop_x_air (blocks d1 d2 : List Nat)
    (h : ∀ i : Nat, blocks.getD i 0 ≠ 0 → d1[i]? = d2[i]?) (z y : Nat) :
    ∀ (n x : Nat) (st : Proj), loop_x blocks d1 z y n x st = loop_x blocks d2 z y n x st := by
  intro n
  induction n with
  | zero => intro x st; rfl
  | succ n ih =>
    intro x st
    simp only [loop_x, loop_body_air blocks d1 d2 h x z y st]
    cases loop_body blocks d2 x z y st with
    | error e => rfl
    | ok st1 => exact ih (x + 1) st1

theorem loop_z_air (blocks d1 d2 : List Nat)
    (h : ∀ i : Nat, blocks.getD i 0 ≠ 0 → d1[i]? = d2[i]?) (width y : Nat) :
    ∀ (n z : Nat) (st : Proj),
      loop_z blocks d1 width y n z st = loop_z blocks d2 width y n z st := by
  intro n
  induction n with
  | zero => intro z st; rfl
  | succ n ih =>
    intro z st
    simp only [loop_z, loop_x_air blocks d1 d2 h z y width 0 st]
    cases loop_x blocks d2 z y width 0 st with
    | error e => rfl
    | ok st1 => exact ih (z + 1) st1

theorem loop_y_air (blocks d1 d2 : List Nat)
    (h : ∀ i : Nat, blocks.getD i 0 ≠ 0 → d1[i]? = d2[i]?) (length width : Nat) :
    ∀ (n y : Nat) (st : Proj),
      loop_y blocks d1 length width n y st = loop_y blocks d2 length width n y st := by
  intro n
  induction n with
  | zero => intro y st; rfl
  | succ n ih =>
    intro y st
    simp only [loop_y, loop_z_air blocks d1 d2 h width y length 0 st]
    cases loop_z blocks d2 width y length 0 st with
    | error e => rfl
    | ok st1 => exact ih (y + 1) st1

/-- The three checks of a run that wrote and closed the output file were
passed. -/
theorem passed_of_text (tag theight tlength twidth tblocks tblock_data : Named_TAG)
    (hH : Named_TAG_find tag (literal "Height") = some theight)
    (hL : Named_TAG_find tag (literal "Length") = some tlength)
    (hW : Named_TAG_find tag (literal "Width") = some twidth)
    (hB : Named_TAG_find tag (literal "Blocks") = some tblocks)
    (hD : Named_TAG_find tag (literal "Data") = some tblock_data)
    (hv : (convert_tag tag).text ≠ none) :
    ¬ (Named_TAG_number theight = 0 ∨ Named_TAG_number twidth = 0 ∨
        Named_TAG_number tlength = 0) ∧
    ¬ (tblocks.tagType ≠ 7 ∨ tblock_data.tagType ≠ 7) ∧
    ¬ (to_uint32 (int_mul (int_mul (Named_TAG_number theight) (Named_TAG_number tlength))
          (Named_TAG_number twidth)) ≠ tblocks.tag.byte_array.1 ∨
        tblocks.tag.byte_array.1 ≠ tblock_data.tag.byte_array.1) := by
  rw [convert_tag_found tag theight tlength twidth tblocks tblock_data hH hL hW hB hD] at hv
  split_ifs at hv with c1 c2 c3
  · exact absurd rfl hv
  · exact absurd rfl hv
  · exact absurd rfl hv
  · exact ⟨c1, c2, c3⟩

/-- For the runs that reach line 433 the projection does not depend on the
metadata of air cells: for two decoded inputs whose runs both write and
close the output file, whose dimensions coerce to the same values, whose
Blocks arrays are the same, and whose Data arrays agree at every index `i`
with `Blocks[i] ≠ 0`, the two runs end with the same emitted records and
the same text in the output file. -/
theorem air_metadata_irrelevant_in_bounds (fuel1 fuel2 : Nat)
    (file1 rest1 file2 rest2 : List Nat)
    (tag1 theight1 tlength1 twidth1 tblocks1 tblock_data1 : Named_TAG)
    (tag2 theight2 tlength2 twidth2 tblocks2 tblock_data2 : Named_TAG)
    (hdec1 : Named_TAG_read fuel1 file1 = some (tag1, rest1))
    (hdec2 : Named_TAG_read fuel2 file2 = some (tag2, rest2))
    (hH1 : Named_TAG_find tag1 (literal "Height") = some theight1)
    (hL1 : Named_TAG_find tag1 (literal "Length") = some tlength1)
    (hW1 : Named_TAG_find tag1 (literal "Width") = some twidth1)
    (hB1 : Named_TAG_find tag1 (literal "Blocks") = some tblocks1)
    (hD1 : Named_TAG_find tag1 (literal "Data") = some tblock_data1)
    (hH2 : Named_TAG_find tag2 (literal "Height") = some theight2)
    (hL2 : Named_TAG_find tag2 (literal "Length") = some tlength2)
    (hW2 : Named_TAG_find tag2 (literal "Width") = some twidth2)
    (hB2 : Named_TAG_find tag2 (literal "Blocks") = some tblocks2)
    (hD2 : Named_TAG_find tag2 (literal "Data") = some tblock_data2)
    (hv1 : (convert_tag tag1).text ≠ none) (hv2 : (convert_tag tag2).text ≠ none)
    (hh : Named_TAG_number theight1 = Named_TAG_number theight2)
    (hl : Named_TAG_number tlength1 = Named_TAG_number tlength2)
    (hw : Named_TAG_number twidth1 = Named_TAG_number twidth2)
    (hblocks : tblocks1.tag.byte_array = tblocks2.tag.byte_array)
    (hdata : ∀ i : Nat, tblocks1.tag.byte_array.2.getD i 0 ≠ 0 →
      tblock_data1.tag.byte_array.2[i]? = tblock_data2.tag.byte_array.2[i]?) :
    convert_file fuel1 file1 = convert_file fuel2 file2 := by
  obtain ⟨a1, a2, a3⟩ :=
    passed_of_text tag1 theight1 tlength1 twidth1 tblocks1 tblock_data1 hH1 hL1 hW1 hB1 hD1 hv1
  obtain ⟨b1, b2, b3⟩ :=
    passed_of_text tag2 theight2 tlength2 twidth2 tblocks2 tblock_data2 hH2 hL2 hW2 hB2 hD2 hv2
  rw [convert_file_decoded fuel1 file1 rest1 tag1 hdec1,
    convert_file_decoded fuel2 file2 rest2 tag2 hdec2,
    convert_tag_found tag1 theight1 tlength1 twidth1 tblocks1 tblock_data1 hH1 hL1 hW1 hB1 hD1,
    convert_tag_found tag2 theight2 tlength2 twidth2 tblocks2 tblock_data2 hH2 hL2 hW2 hB2 hD2,
    if_neg a1, if_neg a2, if_neg a3, if_neg b1, if_neg b2, if_neg b3]
  rw [← hh, ← hl, ← hw, ← hblocks,
    loop_y_air tblocks1.tag.byte_array.2 tblock_data1.tag.byte_array.2
      tblock_data2.tag.byte_array.2 hdata]

/-- C20 fails on the code.  `wrapped_file` and `wrapped_file_alt` hold the
same dimensions (Height 2, Length 3, Width 715827883) and the same Blocks
array 5 0; their Data arrays, 3 0 and 3 9, agree at index 0, the one index
whose block is not 0, and differ at the air cell of index 1.  Both pass the
four checks, the length check because the `int` product of the dimensions
is 2 modulo `2^32`.  Each run emits the record `(0, 0, 0, 5, 3)`, passes
the air cell, and then reads `Blocks[2]` behind the end of its array: from
there on the run reads memory that is not the Blocks array, its output is
not determined, and the two outputs are not known to be equal.  (The two
samples `sample_file` and `sample_file_alt`, whose runs stay inside the
arrays, give the same output.) -/
theorem C20_air_metadata_after_wrap :
    Named_TAG_read 20 wrapped_file = some (wrapped_tree, []) ∧
    Named_TAG_read 20 wrapped_file_alt = some (wrapped_tree_alt, []) ∧
    Named_TAG_find wrapped_tree (literal "Height") =
      Named_TAG_find wrapped_tree_alt (literal "Height") ∧
    Named_TAG_find wrapped_tree (literal "Length") =
      Named_TAG_find wrapped_tree_alt (literal "Length") ∧
    Named_TAG_find wrapped_tree (literal "Width") =
      Named_TAG_find wrapped_tree_alt (literal "Width") ∧
    Named_TAG_find wrapped_tree (literal "Blocks") =
      some (.mk 7 (named "Blocks") (.byteArray 2 [5, 0])) ∧
    Named_TAG_find wrapped_tree_alt (literal "Blocks") =
      some (.mk 7 (named "Blocks") (.byteArray 2 [5, 0])) ∧
    Named_TAG_find wrapped_tree (literal "Data") =
      some (.mk 7 (named "Data") (.byteArray 2 [3, 0])) ∧
    Named_TAG_find wrapped_tree_alt (literal "Data") =
      some (.mk 7 (named "Data") (.byteArray 2 [3, 9])) ∧
    (∀ i : Nat, [5, 0].getD i 0 ≠ 0 → [3, 0][i]? = [3, 9][i]?) ∧
    convert_file 20 wrapped_file = some (.out_of_bounds [⟨0, 0, 0, 5, 3⟩]
      "[META]\nversion=2.0\nspawnElevationMin=0\nspawnElevationMax=128\nrarity=100\ncollisionPercentage=2\n[DATA]\n0,0,0:5.3\n") ∧
    convert_file 20 wrapped_file_alt = some (.out_of_bounds [⟨0, 0, 0, 5, 3⟩]
      "[META]\nversion=2.0\nspawnElevationMin=0\nspawnElevationMax=128\nrarity=100\ncollisionPercentage=2\n[DATA]\n0,0,0:5.3\n") ∧
    loop_body [5, 0] [3, 0] 2 0 0
        { index := 2, f := header ++ "0,0,0:5.3\n", emitted := [⟨0, 0, 0, 5, 3⟩] } =
      .error { index := 2, f := header ++ "0,0,0:5.3\n", emitted := [⟨0, 0, 0, 5, 3⟩] } ∧
    loop_body [5, 0] [3, 9] 2 0 0
        { index := 2, f := header ++ "0,0,0:5.3\n", emitted := [⟨0, 0, 0, 5, 3⟩] } =
      .error { index := 2, f := header ++ "0,0,0:5.3\n", emitted := [⟨0, 0, 0, 5, 3⟩] } ∧
    convert_file 20 sample_file = convert_file 20 sample_file_alt := by
  refine ⟨by decide!, by decide!, by decide, by decide, by decide, by decide, by decide,
    by decide, by decide, ?_, by decide!, by decide!, rfl, rfl, by decide!⟩
  intro i hi
  match i with
  | 0 => rfl
  | 1 => exact absurd rfl hi
  | n + 2 => rfl

end Sch2bob
